import Mathlib

/-!
# batt: charge maintenance loop, keep-awake controller and resume countdown

A shallow embedding of `loop.go`, `caffeinate.go`, `countdown.go` and the callbacks of
`sleepcallback.go`.

* Go's package-level variables (`controller`, `maintainedChargingInProgress`,
  `enableMaintainLoop`) are the fields of `World`; functions that touch them are
  `StateM World` programs, written statement by statement after the Go text.
* Everything outside the process (the SMC connection, `exec.Cmd.Start`,
  `syscall.Kill`) can fail.  Whether a call fails is supplied by `Outcomes`, one
  answer per call site, so every theorem quantifies over all failure patterns.
* `World.trace` is ghost state: the calls made, oldest first.  `World.procs` is
  ghost state too: the process groups launched and not yet successfully signalled.
* The mutexes only serialise callers; one call of a function is modelled as one
  atomic state transformer.  Logging (`logrus`, `printStatus`) has no effect on
  the modelled state and is left out.
* The goroutine of `NewCountDown` is a state machine over two events, a send on its
  channel and a tick of its ticker; `innerLoop` is its inner loop alone, indexed by ticks.
-/

namespace Batt

/-- Go's `error`: `none` is `nil`. -/
abbrev GoError := Option String

/-- Two's-complement wrap of an integer to Go's 64-bit `int`. -/
def wrapInt64 (x : Int) : Int :=
  (x + 9223372036854775808) % 18446744073709551616 - 9223372036854775808

/-- The fields of `config` read by `maintainLoop`. -/
structure Config where
  Limit : Int
  LowerLimitDelta : Int
  ControlMagSafeLED : Bool
  deriving DecidableEq, Repr

/-- The value `maintainLoop` computes for `lower := upper - delta`, in Go `int` arithmetic. -/
def Config.lowerLimit (c : Config) : Int :=
  wrapInt64 (c.Limit - c.LowerLimitDelta)

/-- A configuration that passed the startup validation of the spec (§3, §6):
`upperLimit ∈ [0,100]` and `lowerDelta ≥ 0`; `LowerLimitDelta` is a Go `int`, hence below `2^63`. -/
def Config.Valid (c : Config) : Prop :=
  0 ≤ c.Limit ∧ c.Limit ≤ 100 ∧ 0 ≤ c.LowerLimitDelta ∧ c.LowerLimitDelta < 9223372036854775808

instance (c : Config) : Decidable c.Valid := by
  unfold Config.Valid; infer_instance

/-- The calls whose order and presence the specification talks about. -/
inductive Call where
  | IsChargingEnabled
  | GetBatteryCharge
  | IsPluggedIn
  | EnableCharging
  | DisableCharging
  | SetMagSafeCharging (b : Bool)
  | StartCaffeinate
  | StopCaffeinate
  | CmdStart
  | Kill (pgid : Nat)
  deriving DecidableEq, Repr

/-- The part of `exec.Cmd` the code looks at: `Process` is `nil` until `Start` succeeds. -/
structure ExecCmd where
  Process : Option Nat
  deriving DecidableEq, Repr

/-- The Go struct `CaffeinateController`. -/
structure CaffeinateController where
  Cmd : Option ExecCmd
  deriving DecidableEq, Repr

/-- Modelled from the spec: the state behind `smcConn` (the PowerController of §6); the SMC
package itself is not embedded.  Reads return these fields; a successful
`EnableCharging`, `DisableCharging` or `SetMagSafeCharging` writes them; a failed call
leaves them alone. -/
structure Smc where
  chargingEnabled : Bool
  batteryCharge : Int
  pluggedIn : Bool
  magSafeCharging : Bool
  deriving DecidableEq, Repr

/-- The process state: hardware, package-level variables and ghost state. -/
structure World where
  smc : Smc
  controller : CaffeinateController
  maintainedChargingInProgress : Bool
  enableMaintainLoop : Bool
  procs : List Nat
  trace : List Call
  deriving DecidableEq, Repr

/-- The handle and the live process groups agree: no handle and nothing launched, or a
started command whose process group is the only one launched and not yet signalled.
This holds at program start and is kept by every function below. -/
def World.Coherent (w : World) : Prop :=
  match w.controller.Cmd with
  | none => w.procs = []
  | some cmd =>
    match cmd.Process with
    | none => False
    | some pid => w.procs = [pid]

instance (w : World) : Decidable w.Coherent := by
  unfold World.Coherent; split
  · infer_instance
  · split <;> infer_instance

/-- A stored handle belongs to a started command: `controller.Cmd` is assigned only after
`cmd.Start()` has succeeded, which sets `Process`. -/
def CaffeinateController.Started (c : CaffeinateController) : Prop :=
  match c.Cmd with
  | none => True
  | some cmd => cmd.Process ≠ none

instance (c : CaffeinateController) : Decidable c.Started := by
  unfold CaffeinateController.Started; split <;> infer_instance

/-- What the outside world answers during one tick.  An `...Err` field set to `true` makes
that call return a non-nil error; `cmdStart` is `none` when `cmd.Start()` fails and the
process id of the new process otherwise. -/
structure Outcomes where
  isChargingEnabledErr : Bool
  getBatteryChargeErr : Bool
  isPluggedInErr : Bool
  enableChargingErr : Bool
  disableChargingErr : Bool
  setMagSafeChargingErr : Bool
  cmdStart : Option Nat
  killErr : Bool
  deriving DecidableEq, Repr

/-- Append a call to the ghost trace. -/
def record (c : Call) : StateM World Unit :=
  modify fun w => { w with trace := w.trace ++ [c] }

/-! ## The SMC connection -/

/-- Modelled from the spec: `smcConn.IsChargingEnabled() -> bool|error`. -/
def smcIsChargingEnabled (o : Outcomes) : StateM World (Bool × GoError) := do
  record .IsChargingEnabled
  if o.isChargingEnabledErr then return (false, some "IsChargingEnabled")
  return ((← get).smc.chargingEnabled, none)

/-- Modelled from the spec: `smcConn.GetBatteryCharge() -> percent|error`. -/
def smcGetBatteryCharge (o : Outcomes) : StateM World (Int × GoError) := do
  record .GetBatteryCharge
  if o.getBatteryChargeErr then return (0, some "GetBatteryCharge")
  return ((← get).smc.batteryCharge, none)

/-- Modelled from the spec: `smcConn.IsPluggedIn() -> bool|error`. -/
def smcIsPluggedIn (o : Outcomes) : StateM World (Bool × GoError) := do
  record .IsPluggedIn
  if o.isPluggedInErr then return (false, some "IsPluggedIn")
  return ((← get).smc.pluggedIn, none)

/-- Modelled from the spec: `smcConn.EnableCharging() -> ok|error`. -/
def smcEnableCharging (o : Outcomes) : StateM World GoError := do
  record .EnableCharging
  if o.enableChargingErr then return some "EnableCharging"
  modify fun w => { w with smc := { w.smc with chargingEnabled := true } }
  return none

/-- Modelled from the spec: `smcConn.DisableCharging() -> ok|error`. -/
def smcDisableCharging (o : Outcomes) : StateM World GoError := do
  record .DisableCharging
  if o.disableChargingErr then return some "DisableCharging"
  modify fun w => { w with smc := { w.smc with chargingEnabled := false } }
  return none

/-- Modelled from the spec: `smcConn.SetMagSafeCharging(bool) -> ok|error`. -/
def smcSetMagSafeCharging (o : Outcomes) (charging : Bool) : StateM World GoError := do
  record (.SetMagSafeCharging charging)
  if o.setMagSafeChargingErr then return some "SetMagSafeCharging"
  modify fun w => { w with smc := { w.smc with magSafeCharging := charging } }
  return none

/-! ## caffeinate.go -/

/-- The Go function `StartCaffeinate`; `start` is the outcome of `cmd.Start()`. -/
def StartCaffeinate (start : Option Nat) : StateM World GoError := do
  record .StartCaffeinate
  if (← get).controller.Cmd ≠ none then
    return none
  -- cmd := exec.Command("/usr/bin/caffeinate", "-s"); cmd.Start()
  record .CmdStart
  match start with
  | none => return some "failed to start caffeinate"
  | some pid =>
    let cmd : ExecCmd := { Process := some pid }
    modify fun w => { w with procs := w.procs ++ [pid] }
    modify fun w => { w with controller := { w.controller with Cmd := some cmd } }
    return none

/-- The Go function `StopCaffeinate`; `killErr` tells whether `syscall.Kill` fails. -/
def StopCaffeinate (killErr : Bool) : StateM World GoError := do
  record .StopCaffeinate
  match (← get).controller.Cmd with
  | none => return none
  | some cmd =>
    match cmd.Process with
    | none => return none
    | some pid =>
      -- syscall.Kill(-controller.Cmd.Process.Pid, syscall.SIGTERM)
      record (.Kill pid)
      if killErr then
        return some "failed to stop caffeinate"
      modify fun w => { w with procs := w.procs.erase pid }
      modify fun w => { w with controller := { w.controller with Cmd := none } }
      return none

/-! ## loop.go -/

/-- The Go function `updateMagSafeLed`: the error is logged and dropped. -/
def updateMagSafeLed (o : Outcomes) (isChargingEnabled : Bool) : StateM World Unit := do
  let _err ← smcSetMagSafeCharging o isChargingEnabled
  return ()

/-- The Go function `maintainLoop`, one tick of the charge controller. -/
def maintainLoop (config : Config) (o : Outcomes) : StateM World Bool := do
  let upper := config.Limit
  let delta := config.LowerLimitDelta
  let lower := wrapInt64 (upper - delta)
  let maintain := decide (upper < 100)

  let (isChargingEnabled0, err) ← smcIsChargingEnabled o
  let mut isChargingEnabled := isChargingEnabled0
  if err ≠ none then
    return false

  if !maintain then
    if !isChargingEnabled then
      let err ← smcEnableCharging o
      if err ≠ none then
        return false
    modify fun w => { w with maintainedChargingInProgress := true }
    return true

  let (batteryCharge, err) ← smcGetBatteryCharge o
  if err ≠ none then
    return false

  let (isPluggedIn, err) ← smcIsPluggedIn o
  if err ≠ none then
    return false

  modify fun w => { w with maintainedChargingInProgress := isChargingEnabled && isPluggedIn }

  if batteryCharge < lower && !isChargingEnabled then
    let err ← StartCaffeinate o.cmdStart
    if err ≠ none then
      return false
    let err ← smcEnableCharging o
    if err ≠ none then
      return false
    isChargingEnabled := true
    modify fun w => { w with maintainedChargingInProgress := true }

  if batteryCharge >= upper && isChargingEnabled then
    let err ← StopCaffeinate o.killErr
    if err ≠ none then
      return false
    let err ← smcDisableCharging o
    if err ≠ none then
      return false
    isChargingEnabled := false
    modify fun w => { w with maintainedChargingInProgress := false }

  if config.ControlMagSafeLED then
    updateMagSafeLed o isChargingEnabled

  return true

/-- All outside calls succeed; a launched keep-awake process gets process id `pid`. -/
def allOk (pid : Nat) : Outcomes :=
  { isChargingEnabledErr := false, getBatteryChargeErr := false, isPluggedInErr := false,
    enableChargingErr := false, disableChargingErr := false, setMagSafeChargingErr := false,
    cmdStart := some pid, killErr := false }

/-- The state at program start with the given hardware state: `controller = &CaffeinateController{}`,
`enableMaintainLoop.Store(true)` from `init`, the zero value for the in-progress flag. -/
def World.init (smc : Smc) : World :=
  { smc := smc, controller := { Cmd := none }, maintainedChargingInProgress := false,
    enableMaintainLoop := true, procs := [], trace := [] }

/-- The condition of the first `if` block of `maintainLoop` (enable step), on the snapshot. -/
def enableCondition (config : Config) (w : World) : Prop :=
  w.smc.batteryCharge < config.lowerLimit ∧ w.smc.chargingEnabled = false

/-- The condition of the second `if` block of `maintainLoop` (disable step), on the snapshot. -/
def disableCondition (config : Config) (w : World) : Prop :=
  w.smc.batteryCharge ≥ config.Limit ∧ w.smc.chargingEnabled = true

/-- The three reads of a tick in maintain mode all succeed. -/
def Outcomes.readsOk (o : Outcomes) : Prop :=
  o.isChargingEnabledErr = false ∧ o.getBatteryChargeErr = false ∧ o.isPluggedInErr = false

instance (config : Config) (w : World) : Decidable (enableCondition config w) := by
  unfold enableCondition; infer_instance

instance (config : Config) (w : World) : Decidable (disableCondition config w) := by
  unfold disableCondition; infer_instance

instance (o : Outcomes) : Decidable o.readsOk := by
  unfold Outcomes.readsOk; infer_instance

/-! ## Sequences of keep-awake calls -/

/-- One call of the keep-awake controller together with what the operating system answers. -/
inductive CaffeinateCall where
  | start (launch : Option Nat)
  | stop (killErr : Bool)
  deriving DecidableEq, Repr

/-- Run a sequence of `StartCaffeinate` / `StopCaffeinate` calls, dropping the returned errors. -/
def runCaffeinate : List CaffeinateCall → World → World
  | [], w => w
  | .start launch :: rest, w => runCaffeinate rest ((StartCaffeinate launch).run w).2
  | .stop killErr :: rest, w => runCaffeinate rest ((StopCaffeinate killErr).run w).2

/-! ## countdown.go -/

/-- The value of `ticksWanted := seconds * 1000 / tl` with `tl = 250`, in Go `int` arithmetic
(wrapping product, division truncating toward zero). -/
def ticksWanted (seconds : Int) : Int :=
  Int.tdiv (wrapInt64 (seconds * 1000)) 250

/-- One pass through the body of `for range t.C`.  `signal` tells whether a start request is
waiting on `ch` when the `select` runs.  Returns the new `ticksElapsed` and whether the loop
breaks. -/
def tickBody (wanted : Int) (ticksElapsed : Int) (signal : Bool) : Int × Bool :=
  let ticksElapsed := if signal then 0 else ticksElapsed
  let ticksElapsed := wrapInt64 (ticksElapsed + 1)
  (ticksElapsed, decide (ticksElapsed > wanted))

/-- Where the goroutine of `NewCountDown` is after some ticks of one ticker: still inside
`for range t.C`, or past the `break`, having called `action()` at the given tick. -/
inductive LoopState where
  | counting (ticksElapsed : Int)
  | fired (atTick : Nat)
  deriving DecidableEq, Repr

/-- The goroutine of `NewCountDown` from the moment a start request has been received by the
outer `for range ch` (tick 0, `ticksElapsed := 0`), after `n` ticks of the 250 ms ticker.
`signal i` tells whether a further start request is waiting on `ch` at tick `i`. -/
def innerLoop (seconds : Int) (signal : Nat → Bool) : Nat → LoopState
  | 0 => .counting 0
  | n + 1 =>
    match innerLoop seconds signal n with
    | .fired t => .fired t
    | .counting ticksElapsed =>
      match tickBody (ticksWanted seconds) ticksElapsed (signal (n + 1)) with
      | (_, true) => .fired (n + 1)
      | (ticksElapsed, false) => .counting ticksElapsed

/-- No occurrence of `b` in the list comes before the first occurrence of `a`. -/
def precedes (a b : Call) : List Call → Bool
  | [] => true
  | c :: rest => if c = a then true else if c = b then false else precedes a b rest

/-! ## The tick, block by block

`maintainLoop` is one long sequence of statements.  To reason about it block by block, the
statements after each block are named here; `maintainLoop_eq` shows (by unfolding alone)
that `maintainLoop` is the first block followed by these.  All later theorems are stated
about `maintainLoop` itself. -/

/-- Lines 130-137 of `loop.go`: the LED update and `return true`. -/
def ledTail (config : Config) (o : Outcomes) (isChargingEnabled : Bool) : StateM World Bool := do
  if config.ControlMagSafeLED then
    updateMagSafeLed o isChargingEnabled
  return true

/-- Lines 107-137 of `loop.go`: the second `if` block and what follows it. -/
def disableTail (config : Config) (o : Outcomes) (batteryCharge : Int)
    (isChargingEnabled : Bool) : StateM World Bool := do
  if batteryCharge >= config.Limit && isChargingEnabled then
    let err ← StopCaffeinate o.killErr
    if err ≠ none then
      return false
    let err ← smcDisableCharging o
    if err ≠ none then
      return false
    modify fun w => { w with maintainedChargingInProgress := false }
    ledTail config o false
  else
    ledTail config o isChargingEnabled

/-- Lines 84-137 of `loop.go`: the first `if` block and what follows it. -/
def enableTail (config : Config) (o : Outcomes) (batteryCharge : Int)
    (isChargingEnabled : Bool) : StateM World Bool := do
  if batteryCharge < wrapInt64 (config.Limit - config.LowerLimitDelta) && !isChargingEnabled then
    let err ← StartCaffeinate o.cmdStart
    if err ≠ none then
      return false
    let err ← smcEnableCharging o
    if err ≠ none then
      return false
    modify fun w => { w with maintainedChargingInProgress := true }
    disableTail config o batteryCharge true
  else
    disableTail config o batteryCharge isChargingEnabled

/-- Lines 68-137 of `loop.go`: maintain mode, from the battery read on. -/
def maintainTail (config : Config) (o : Outcomes) (isChargingEnabled : Bool) :
    StateM World Bool := do
  let (batteryCharge, err) ← smcGetBatteryCharge o
  if err ≠ none then
    return false
  let (isPluggedIn, err) ← smcIsPluggedIn o
  if err ≠ none then
    return false
  modify fun w => { w with maintainedChargingInProgress := isChargingEnabled && isPluggedIn }
  enableTail config o batteryCharge isChargingEnabled

/-- Lines 54-66 of `loop.go`: the limit is 100, charge regardless of the battery level. -/
def fullChargeTail (o : Outcomes) (isChargingEnabled : Bool) : StateM World Bool := do
  if !isChargingEnabled then
    let err ← smcEnableCharging o
    if err ≠ none then
      return false
  modify fun w => { w with maintainedChargingInProgress := true }
  return true

/-! ### The same blocks as functions of the state -/

/-- The state with one more call in the trace. -/
def World.log (w : World) (c : Call) : World :=
  { w with trace := w.trace ++ [c] }

/-- The state with the hardware charging switch set to `b`. -/
def World.setCharging (w : World) (b : Bool) : World :=
  { w with smc := { w.smc with chargingEnabled := b } }

/-- The state with `maintainedChargingInProgress` set to `b`. -/
def World.setInProgress (w : World) (b : Bool) : World :=
  { w with maintainedChargingInProgress := b }

/-- The state with the MagSafe LED set to `b`. -/
def World.setLed (w : World) (b : Bool) : World :=
  { w with smc := { w.smc with magSafeCharging := b } }

/-- The calls made by the LED update. -/
def ledCalls (config : Config) (isChargingEnabled : Bool) : List Call :=
  if config.ControlMagSafeLED then [.SetMagSafeCharging isChargingEnabled] else []

/-- Result of `ledTail`. -/
def ledStep (config : Config) (o : Outcomes) (isChargingEnabled : Bool) (w : World) :
    Bool × World :=
  if config.ControlMagSafeLED then
    if o.setMagSafeChargingErr then (true, w.log (.SetMagSafeCharging isChargingEnabled))
    else (true, (w.log (.SetMagSafeCharging isChargingEnabled)).setLed isChargingEnabled)
  else (true, w)

/-- Result of `disableTail`. -/
def disableStep (config : Config) (o : Outcomes) (batteryCharge : Int)
    (isChargingEnabled : Bool) (w : World) : Bool × World :=
  if batteryCharge ≥ config.Limit ∧ isChargingEnabled = true then
    match (StopCaffeinate o.killErr).run w with
    | (some _, w) => (false, w)
    | (none, w) =>
      if o.disableChargingErr then (false, w.log .DisableCharging)
      else ledStep config o false (((w.log .DisableCharging).setCharging false).setInProgress false)
  else ledStep config o isChargingEnabled w

/-- Result of `enableTail`. -/
def enableStep (config : Config) (o : Outcomes) (batteryCharge : Int)
    (isChargingEnabled : Bool) (w : World) : Bool × World :=
  if batteryCharge < config.lowerLimit ∧ isChargingEnabled = false then
    match (StartCaffeinate o.cmdStart).run w with
    | (some _, w) => (false, w)
    | (none, w) =>
      if o.enableChargingErr then (false, w.log .EnableCharging)
      else disableStep config o batteryCharge true
        (((w.log .EnableCharging).setCharging true).setInProgress true)
  else disableStep config o batteryCharge isChargingEnabled w

/-- Result of `maintainLoop`. -/
def maintainLoopUnrolled (config : Config) (o : Outcomes) (w : World) : Bool × World :=
  if o.isChargingEnabledErr then (false, w.log .IsChargingEnabled)
  else if 100 ≤ config.Limit then
    if w.smc.chargingEnabled then (true, (w.log .IsChargingEnabled).setInProgress true)
    else if o.enableChargingErr then (false, (w.log .IsChargingEnabled).log .EnableCharging)
    else (true, (((w.log .IsChargingEnabled).log .EnableCharging).setCharging true).setInProgress true)
  else if o.getBatteryChargeErr then (false, (w.log .IsChargingEnabled).log .GetBatteryCharge)
  else if o.isPluggedInErr then
    (false, ((w.log .IsChargingEnabled).log .GetBatteryCharge).log .IsPluggedIn)
  else
    enableStep config o w.smc.batteryCharge w.smc.chargingEnabled
      ((((w.log .IsChargingEnabled).log .GetBatteryCharge).log .IsPluggedIn).setInProgress
        (w.smc.chargingEnabled && w.smc.pluggedIn))

/-! ## Example inputs -/

/-- The configuration of the end-to-end example of the spec: upper limit 80, delta 5. -/
def cfg80 : Config := { Limit := 80, LowerLimitDelta := 5, ControlMagSafeLED := false }

/-- A world at program start with the given snapshot and keep-awake handle. -/
def mkWorld (charge : Int) (charging plugged : Bool) (cmd : Option ExecCmd) (procs : List Nat) :
    World :=
  { World.init { chargingEnabled := charging, batteryCharge := charge, pluggedIn := plugged,
                 magSafeCharging := false } with
    controller := { Cmd := cmd }, procs := procs }

/-- Charge 70, plugged in, not charging, no keep-awake process. -/
def worldLow : World := mkWorld 70 false true none []

/-- Charge 80, charging, keep-awake process 7 running. -/
def worldHigh : World := mkWorld 80 true true (some { Process := some 7 }) [7]

/-- Charge 77, charging, keep-awake process 7 running. -/
def worldMid : World := mkWorld 77 true true (some { Process := some 7 }) [7]

/-- Charge 50, on battery, not charging. -/
def worldHalf : World := mkWorld 50 false false none []

/-- The configuration with the limit at 100: maintenance switched off. -/
def cfg100 : Config := { Limit := 100, LowerLimitDelta := 5, ControlMagSafeLED := true }

/-- Everything succeeds except launching the keep-awake process. -/
def launchFails : Outcomes := { allOk 4242 with cmdStart := none }

/-- Everything succeeds except `EnableCharging`. -/
def enableFails : Outcomes := { allOk 4242 with enableChargingErr := true }

/-- Everything succeeds except signalling the keep-awake process group. -/
def killFails : Outcomes := { allOk 4242 with killErr := true }

/-- A second start request is waiting on the channel at tick 1 and at no other tick. -/
def restartAtTick1 : Nat → Bool := fun n => decide (n = 1)

/-! ## countdown.go: the whole goroutine -/

/-- Where the goroutine started by `NewCountDown` waits: in the outer `for range ch`
(no ticker exists), or in `for range t.C` with the given `ticksElapsed`. -/
inductive TimerPhase where
  | idle
  | counting (ticksElapsed : Int)
  deriving DecidableEq, Repr

/-- The goroutine started by `NewCountDown` together with its unbuffered channel `ch`:
`pending` counts the senders blocked in `ch <- struct{}{}`, `actions` (ghost) counts the
calls of `action()` so far. -/
structure CountDown where
  phase : TimerPhase
  pending : Nat
  actions : Nat
  deriving DecidableEq, Repr

/-- The state right after `NewCountDown` returned: the goroutine waits for a start request. -/
def NewCountDown : CountDown :=
  { phase := .idle, pending := 0, actions := 0 }

/-- What can happen to the goroutine: somebody starts a send on `ch`, or the ticker ticks. -/
inductive TimerEvent where
  | send
  | tick
  deriving DecidableEq, Repr

/-- One event of the goroutine of `NewCountDown(action, seconds)`; `σ` is the state `action`
works on.  A send is received at once by the outer loop when the goroutine is idle, and stays
pending until the `select` of the next tick otherwise.  After the `break` the goroutine calls
`action()` and is back in the outer loop, which takes a pending send at once. -/
def countDownStep {σ : Type} (action : σ → σ) (seconds : Int) (ev : TimerEvent)
    (t : CountDown × σ) : CountDown × σ :=
  match ev, t.1.phase with
  | .send, .idle => ({ t.1 with phase := .counting 0 }, t.2)
  | .send, .counting _ => ({ t.1 with pending := t.1.pending + 1 }, t.2)
  | .tick, .idle => t
  | .tick, .counting ticksElapsed =>
    let signal := decide (0 < t.1.pending)
    let pending := if signal then t.1.pending - 1 else t.1.pending
    match tickBody (ticksWanted seconds) ticksElapsed signal with
    | (ticksElapsed, false) =>
      ({ t.1 with phase := .counting ticksElapsed, pending := pending }, t.2)
    | (_, true) =>
      if 0 < pending then
        ({ phase := .counting 0, pending := pending - 1, actions := t.1.actions + 1 },
          action t.2)
      else
        ({ phase := .idle, pending := pending, actions := t.1.actions + 1 }, action t.2)

/-- Run the goroutine through a list of events, oldest first. -/
def countDownRun {σ : Type} (action : σ → σ) (seconds : Int) :
    List TimerEvent → CountDown × σ → CountDown × σ
  | [], t => t
  | ev :: rest, t => countDownRun action seconds rest (countDownStep action seconds ev t)

/-- An idle goroutine with nothing pending that has called `action()` `a` times. -/
def idleAfter (a : Nat) : CountDown :=
  { phase := .idle, pending := 0, actions := a }

/-- The goroutine after a first start request, received while idle after `a` calls of
`action()`, followed by the events `es`. -/
def afterStart {σ : Type} (action : σ → σ) (seconds : Int) (a : Nat) (s : σ)
    (es : List TimerEvent) : CountDown × σ :=
  countDownRun action seconds (.send :: es) (idleAfter a, s)

/-- The two situations of a goroutine during and after one burst of start requests: still
counting with `action()` not yet called again, or idle with exactly one more call. -/
def burstInv {σ : Type} (action : σ → σ) (seconds : Int) (a : Nat) (s : σ)
    (t : CountDown × σ) : Prop :=
  (t.1.actions = a ∧ t.2 = s ∧
    ∃ e, t.1.phase = .counting e ∧ 0 ≤ e ∧ e ≤ ticksWanted seconds) ∨
  t = (idleAfter (a + 1), action s)

/-! ## sleepcallback.go and the scheduler loop -/

/-- The Go constant `postSleepLoopDelaySeconds`. -/
def postSleepLoopDelaySeconds : Int := 30

/-- The closure `func() { enableMaintainLoop.Store(true) }` that `init` hands to
`NewCountDown`. -/
def enableMaintainLoopAction (w : World) : World :=
  { w with enableMaintainLoop := true }

/-- The Go function `systemWillSleepCallback`: `enableMaintainLoop.Store(false)`; the log line
and `C.AllowPowerChange()` do not touch the modelled state. -/
def systemWillSleepCallback : StateM World Unit := do
  modify fun w => { w with enableMaintainLoop := false }

/-- One pass through the body of the `for` of `infiniteLoop`, without the `time.Sleep`. -/
def infiniteLoopBody (config : Config) (o : Outcomes) : StateM World Unit := do
  if (← get).enableMaintainLoop then
    let _ ← maintainLoop config o
  return ()

/-- The process state together with `countDownEnableMaintainLoop`. -/
structure System where
  world : World
  timer : CountDown
  deriving DecidableEq, Repr

/-- The Go function `systemHasPoweredOnCallback`: `maintainLoop()`, then a send on the channel
of `countDownEnableMaintainLoop`. -/
def systemHasPoweredOnCallback (config : Config) (o : Outcomes) (s : System) : System :=
  let w := ((maintainLoop config o).run s.world).2
  let r := countDownStep enableMaintainLoopAction postSleepLoopDelaySeconds .send (s.timer, w)
  { world := r.2, timer := r.1 }

/-- What can happen to the daemon: one of the four power notifications, one iteration of
`infiniteLoop`, or a tick of the countdown's ticker. -/
inductive SystemEvent where
  | canSystemSleep
  | systemWillSleep
  | systemWillPowerOn
  | systemHasPoweredOn (o : Outcomes)
  | loopIteration (o : Outcomes)
  | timerTick
  deriving DecidableEq, Repr

/-- The daemon's reaction to one event. -/
def System.step (config : Config) (s : System) : SystemEvent → System
  | .canSystemSleep => s
  | .systemWillSleep => { s with world := (systemWillSleepCallback.run s.world).2 }
  | .systemWillPowerOn => s
  | .systemHasPoweredOn o => systemHasPoweredOnCallback config o s
  | .loopIteration o => { s with world := ((infiniteLoopBody config o).run s.world).2 }
  | .timerTick =>
    let r := countDownStep enableMaintainLoopAction postSleepLoopDelaySeconds .tick
      (s.timer, s.world)
    { world := r.2, timer := r.1 }

/-! ## More example inputs -/

/-- Everything succeeds except `GetBatteryCharge`. -/
def batteryReadFails : Outcomes := { allOk 4242 with getBatteryChargeErr := true }

/-- Upper limit 80, delta 5, LED control configured. -/
def cfg80Led : Config := { Limit := 80, LowerLimitDelta := 5, ControlMagSafeLED := true }

/-- Everything succeeds except `SetMagSafeCharging`. -/
def ledFails : Outcomes := { allOk 4242 with setMagSafeChargingErr := true }

/-- Charge 70, not charging and not plugged in according to the snapshot. -/
def worldLowUnplugged : World := mkWorld 70 false false none []

/-- One start, a tick, a second start taken by the next tick, then four more ticks. -/
def twoStarts : List TimerEvent :=
  [.tick, .send, .tick, .tick, .tick, .tick, .tick]

/-! # Theorems -/

theorem run_ite {α : Type} (c : Prop) [Decidable c] (a b : StateM World α) (w : World) :
    (if c then a else b).run w = if c then a.run w else b.run w := by
  split <;> rfl

theorem record_run (c : Call) (w : World) : (record c).run w = ((), w.log c) := rfl

theorem smcIsChargingEnabled_run (o : Outcomes) (w : World) :
    (smcIsChargingEnabled o).run w =
      (if o.isChargingEnabledErr then (false, some "IsChargingEnabled")
       else (w.smc.chargingEnabled, none), w.log .IsChargingEnabled) := by
  cases h : o.isChargingEnabledErr <;>
    simp [smcIsChargingEnabled, h, World.log, record, StateT.run, bind, StateT.bind, modify, modifyGet,
      MonadStateOf.modifyGet, StateT.modifyGet, pure, StateT.pure, get, getThe, MonadStateOf.get,
      StateT.get]

theorem smcGetBatteryCharge_run (o : Outcomes) (w : World) :
    (smcGetBatteryCharge o).run w =
      (if o.getBatteryChargeErr then (0, some "GetBatteryCharge")
       else (w.smc.batteryCharge, none), w.log .GetBatteryCharge) := by
  cases h : o.getBatteryChargeErr <;>
    simp [smcGetBatteryCharge, h, World.log, record, StateT.run, bind, StateT.bind, modify, modifyGet,
      MonadStateOf.modifyGet, StateT.modifyGet, pure, StateT.pure, get, getThe, MonadStateOf.get,
      StateT.get]

theorem smcIsPluggedIn_run (o : Outcomes) (w : World) :
    (smcIsPluggedIn o).run w =
      (if o.isPluggedInErr then (false, some "IsPluggedIn")
       else (w.smc.pluggedIn, none), w.log .IsPluggedIn) := by
  cases h : o.isPluggedInErr <;>
    simp [smcIsPluggedIn, h, World.log, record, StateT.run, bind, StateT.bind, modify, modifyGet,
      MonadStateOf.modifyGet, StateT.modifyGet, pure, StateT.pure, get, getThe, MonadStateOf.get,
      StateT.get]

theorem smcEnableCharging_run (o : Outcomes) (w : World) :
    (smcEnableCharging o).run w =
      if o.enableChargingErr then (some "EnableCharging", w.log .EnableCharging)
      else (none, (w.log .EnableCharging).setCharging true) := by
  cases h : o.enableChargingErr <;>
    simp [smcEnableCharging, h, World.log, World.setCharging, record, StateT.run, bind, StateT.bind, modify, modifyGet,
      MonadStateOf.modifyGet, StateT.modifyGet, pure, StateT.pure, get, getThe, MonadStateOf.get,
      StateT.get]

theorem smcDisableCharging_run (o : Outcomes) (w : World) :
    (smcDisableCharging o).run w =
      if o.disableChargingErr then (some "DisableCharging", w.log .DisableCharging)
      else (none, (w.log .DisableCharging).setCharging false) := by
  cases h : o.disableChargingErr <;>
    simp [smcDisableCharging, h, World.log, World.setCharging, record, StateT.run, bind, StateT.bind, modify, modifyGet,
      MonadStateOf.modifyGet, StateT.modifyGet, pure, StateT.pure, get, getThe, MonadStateOf.get,
      StateT.get]

theorem updateMagSafeLed_run (o : Outcomes) (b : Bool) (w : World) :
    (updateMagSafeLed o b).run w =
      ((), if o.setMagSafeChargingErr then w.log (.SetMagSafeCharging b)
           else (w.log (.SetMagSafeCharging b)).setLed b) := by
  cases h : o.setMagSafeChargingErr <;>
    simp [updateMagSafeLed, smcSetMagSafeCharging, h, World.log, World.setLed, record, StateT.run, bind, StateT.bind, modify, modifyGet,
      MonadStateOf.modifyGet, StateT.modifyGet, pure, StateT.pure, get, getThe, MonadStateOf.get,
      StateT.get]

theorem StartCaffeinate_run (start : Option Nat) (w : World) :
    (StartCaffeinate start).run w =
      if w.controller.Cmd ≠ none then (none, w.log .StartCaffeinate)
      else match start with
        | none => (some "failed to start caffeinate", (w.log .StartCaffeinate).log .CmdStart)
        | some pid =>
          (none, { (w.log .StartCaffeinate).log .CmdStart with
                   procs := w.procs ++ [pid], controller := { Cmd := some { Process := some pid } } }) := by
  obtain ⟨smc, ⟨cmd⟩, ip, en, procs, tr⟩ := w
  cases cmd <;> cases start <;>
    simp [StartCaffeinate, World.log, record, StateT.run, bind, StateT.bind, modify, modifyGet,
      MonadStateOf.modifyGet, StateT.modifyGet, pure, StateT.pure, get, getThe, MonadStateOf.get,
      StateT.get]

theorem StopCaffeinate_run (killErr : Bool) (w : World) :
    (StopCaffeinate killErr).run w =
      match w.controller.Cmd with
      | none => (none, w.log .StopCaffeinate)
      | some cmd =>
        match cmd.Process with
        | none => (none, w.log .StopCaffeinate)
        | some pid =>
          if killErr then
            (some "failed to stop caffeinate", (w.log .StopCaffeinate).log (.Kill pid))
          else
            (none, { (w.log .StopCaffeinate).log (.Kill pid) with
                     procs := w.procs.erase pid, controller := { Cmd := none } }) := by
  obtain ⟨smc, ⟨cmd⟩, ip, en, procs, tr⟩ := w
  rcases cmd with _ | ⟨_ | pid⟩ <;> cases killErr <;>
    simp [StopCaffeinate, World.log, record, StateT.run, bind, StateT.bind, modify, modifyGet,
      MonadStateOf.modifyGet, StateT.modifyGet, pure, StateT.pure, get, getThe, MonadStateOf.get,
      StateT.get]

theorem modify_run (f : World → World) (w : World) :
    (modify f : StateM World Unit).run w = ((), f w) := rfl

theorem maintainLoop_eq (config : Config) (o : Outcomes) :
    maintainLoop config o = (do
      let (isChargingEnabled, err) ← smcIsChargingEnabled o
      if err ≠ none then
        return false
      if !decide (config.Limit < 100) then
        fullChargeTail o isChargingEnabled
      else
        maintainTail config o isChargingEnabled) := by
  rfl

theorem ledTail_run (config : Config) (o : Outcomes) (b : Bool) (w : World) :
    (ledTail config o b).run w = ledStep config o b w := by
  cases h : config.ControlMagSafeLED <;> cases h2 : o.setMagSafeChargingErr <;>
    simp [ledTail, ledStep, h, h2, StateT.run_bind, run_ite, updateMagSafeLed_run]

theorem disableTail_run (config : Config) (o : Outcomes) (bc : Int) (b : Bool) (w : World) :
    (disableTail config o bc b).run w = disableStep config o bc b w := by
  simp only [disableTail, disableStep, StateT.run_bind, run_ite, StateT.run_pure, Id.bind_eq,
    Id.pure_eq, modify_run, smcDisableCharging_run, ledTail_run]
  generalize (StopCaffeinate o.killErr).run w = r
  obtain ⟨err, w1⟩ := r
  by_cases hc : bc ≥ config.Limit <;> cases b <;> cases err <;> cases h : o.disableChargingErr <;>
    simp [hc, h, World.setInProgress]

theorem enableTail_run (config : Config) (o : Outcomes) (bc : Int) (b : Bool) (w : World) :
    (enableTail config o bc b).run w = enableStep config o bc b w := by
  simp only [enableTail, enableStep, StateT.run_bind, run_ite, StateT.run_pure, Id.bind_eq,
    Id.pure_eq, modify_run, smcEnableCharging_run, disableTail_run, Config.lowerLimit]
  generalize (StartCaffeinate o.cmdStart).run w = r
  obtain ⟨err, w1⟩ := r
  by_cases hc : bc < wrapInt64 (config.Limit - config.LowerLimitDelta) <;> cases b <;>
    cases err <;> cases h : o.enableChargingErr <;>
    simp [hc, h, World.setInProgress]

theorem maintainLoop_run (config : Config) (o : Outcomes) (w : World) :
    (maintainLoop config o).run w = maintainLoopUnrolled config o w := by
  rw [maintainLoop_eq]
  simp only [maintainTail, fullChargeTail, maintainLoopUnrolled, StateT.run_bind, run_ite, StateT.run_pure, Id.bind_eq,
    Id.pure_eq, modify_run, smcEnableCharging_run, smcIsChargingEnabled_run, smcGetBatteryCharge_run,
    smcIsPluggedIn_run, enableTail_run]
  by_cases h100 : 100 ≤ config.Limit
  · have h100b : ¬ config.Limit < 100 := by omega
    cases h1 : o.isChargingEnabledErr <;> cases h2 : w.smc.chargingEnabled <;>
      cases h3 : o.enableChargingErr <;>
      simp [h100, h100b, h1, h2, h3, World.setInProgress, World.log, World.setCharging]
  · have h100b : config.Limit < 100 := by omega
    cases h1 : o.isChargingEnabledErr <;> cases h2 : o.getBatteryChargeErr <;>
      cases h3 : o.isPluggedInErr <;>
      simp [h100, h100b, h1, h2, h3, World.setInProgress, World.log, World.setCharging]

/-! ### What the LED update leaves alone -/

@[simp] theorem ledStep_fst (config : Config) (o : Outcomes) (b : Bool) (w : World) :
    (ledStep config o b w).1 = true := by
  unfold ledStep; split_ifs <;> rfl

@[simp] theorem ledStep_trace (config : Config) (o : Outcomes) (b : Bool) (w : World) :
    (ledStep config o b w).2.trace = w.trace ++ ledCalls config b := by
  unfold ledStep ledCalls; split_ifs <;> simp [World.log, World.setLed]

@[simp] theorem ledStep_controller (config : Config) (o : Outcomes) (b : Bool) (w : World) :
    (ledStep config o b w).2.controller = w.controller := by
  unfold ledStep; split_ifs <;> rfl

@[simp] theorem ledStep_procs (config : Config) (o : Outcomes) (b : Bool) (w : World) :
    (ledStep config o b w).2.procs = w.procs := by
  unfold ledStep; split_ifs <;> rfl

@[simp] theorem ledStep_chargingEnabled (config : Config) (o : Outcomes) (b : Bool) (w : World) :
    (ledStep config o b w).2.smc.chargingEnabled = w.smc.chargingEnabled := by
  unfold ledStep; split_ifs <;> rfl

@[simp] theorem ledStep_batteryCharge (config : Config) (o : Outcomes) (b : Bool) (w : World) :
    (ledStep config o b w).2.smc.batteryCharge = w.smc.batteryCharge := by
  unfold ledStep; split_ifs <;> rfl

@[simp] theorem ledStep_inProgress (config : Config) (o : Outcomes) (b : Bool) (w : World) :
    (ledStep config o b w).2.maintainedChargingInProgress = w.maintainedChargingInProgress := by
  unfold ledStep; split_ifs <;> rfl

@[simp] theorem mem_ledCalls (config : Config) (b : Bool) (c : Call) :
    c ∈ ledCalls config b ↔ config.ControlMagSafeLED = true ∧ c = .SetMagSafeCharging b := by
  unfold ledCalls; split_ifs with h <;> simp [h]

theorem lowerLimit_of_valid (config : Config) (hv : config.Valid) :
    config.lowerLimit = config.Limit - config.LowerLimitDelta ∧ config.lowerLimit ≤ config.Limit := by
  obtain ⟨h0, h1, h2, h3⟩ := hv
  unfold Config.lowerLimit wrapInt64
  omega

/-- Claim C1.  For a validated configuration with `Limit < 100` and every state whose
snapshot has `batteryCharge < Limit - LowerLimitDelta` and charging not enabled: whatever the
outside calls answer, if the tick returns `true` then afterwards the keep-awake handle is
present and charging is enabled.  If handle and live processes agreed before the tick, a
keep-awake process is alive after it. -/
theorem tick_below_lower_enables (config : Config) (o : Outcomes) (w : World)
    (hv : config.Valid) (hu : config.Limit < 100)
    (hc : w.smc.batteryCharge < config.Limit - config.LowerLimitDelta)
    (he : w.smc.chargingEnabled = false)
    (hs : ((maintainLoop config o).run w).1 = true) :
    ((maintainLoop config o).run w).2.controller.Cmd ≠ none ∧
    ((maintainLoop config o).run w).2.smc.chargingEnabled = true ∧
    (w.Coherent → ((maintainLoop config o).run w).2.procs ≠ []) := by
  obtain ⟨hl, hle⟩ := lowerLimit_of_valid config hv
  have h1 : ¬ 100 ≤ config.Limit := by omega
  have h2 : w.smc.batteryCharge < config.lowerLimit := by omega
  have h3 : ¬ w.smc.batteryCharge ≥ config.Limit := by omega
  rw [maintainLoop_run] at hs ⊢
  obtain ⟨e1, e2, e3, e4, e5, e6, st, e8⟩ := o
  obtain ⟨⟨ce, bc, pl, ms⟩, ⟨cmd⟩, ip, en, procs, tr⟩ := w
  simp only at he h2 h3
  subst he
  simp only [maintainLoopUnrolled, enableStep, disableStep, StartCaffeinate_run,
    World.log, World.setCharging, World.setInProgress, World.Coherent, h1, h2, h3] at hs ⊢
  cases e1 <;> cases e2 <;> cases e3 <;> rcases cmd with _ | ⟨_ | pid⟩ <;> cases st <;>
    cases e4 <;> simp at hs ⊢ <;> intro h <;> simp [h]

theorem tick_below_lower_enables_witness :
    ((maintainLoop cfg80 (allOk 4242)).run worldLow).2.controller.Cmd ≠ none ∧
    ((maintainLoop cfg80 (allOk 4242)).run worldLow).2.smc.chargingEnabled = true ∧
    (worldLow.Coherent →
      ((maintainLoop cfg80 (allOk 4242)).run worldLow).2.procs ≠ []) :=
  tick_below_lower_enables cfg80 (allOk 4242) worldLow
    (by decide) (by decide) (by decide) rfl (by decide)

theorem precedes_spec (a b : Call) (hab : a ≠ b) (l : List Call) (h : precedes a b l = true) :
    ∀ l1 l2, l = l1 ++ b :: l2 → a ∈ l1 := by
  induction l with
  | nil => intro l1 l2 hl; simp at hl
  | cons c rest ih =>
    intro l1 l2 hl
    cases l1 with
    | nil =>
      simp only [List.nil_append, List.cons.injEq] at hl
      obtain ⟨hc, -⟩ := hl
      subst hc
      have hne : ¬ c = a := fun hca => hab hca.symm
      rw [precedes, if_neg hne, if_pos rfl] at h
      exact absurd h (by simp)
    | cons d l1 =>
      simp only [List.cons_append, List.cons.injEq] at hl
      obtain ⟨hc, hrest⟩ := hl
      subst hc
      by_cases hca : c = a
      · simp [hca]
      · by_cases hcb : c = b
        · rw [precedes, if_neg hca, if_pos hcb] at h
          exact absurd h (by simp)
        · rw [precedes, if_neg hca, if_neg hcb] at h
          exact List.mem_cons_of_mem _ (ih h l1 l2 hrest)

/-- Claim C2.  With `Limit < 100`, for every state whose snapshot has
`batteryCharge ≥ Limit` and charging enabled, and whose stored handle (if any) belongs to a
started command: if the tick returns `true` then afterwards there is no keep-awake handle and
charging is disabled.  If handle and live processes agreed before the tick, no keep-awake
process is left. -/
theorem tick_at_upper_disables (config : Config) (o : Outcomes) (w : World)
    (hu : config.Limit < 100)
    (hc : w.smc.batteryCharge ≥ config.Limit)
    (he : w.smc.chargingEnabled = true)
    (hp : w.controller.Started)
    (hs : ((maintainLoop config o).run w).1 = true) :
    ((maintainLoop config o).run w).2.controller.Cmd = none ∧
    ((maintainLoop config o).run w).2.smc.chargingEnabled = false ∧
    (w.Coherent → ((maintainLoop config o).run w).2.procs = []) := by
  have h1 : ¬ 100 ≤ config.Limit := by omega
  rw [maintainLoop_run] at hs ⊢
  obtain ⟨e1, e2, e3, e4, e5, e6, st, e8⟩ := o
  obtain ⟨⟨ce, bc, pl, ms⟩, ⟨cmd⟩, ip, en, procs, tr⟩ := w
  simp only at he hc
  subst he
  simp only [maintainLoopUnrolled, enableStep, disableStep, StopCaffeinate_run,
    World.log, World.setCharging, World.setInProgress, World.Coherent,
    CaffeinateController.Started, h1, hc] at hs hp ⊢
  cases e1 <;> cases e2 <;> cases e3 <;> rcases cmd with _ | ⟨_ | pid⟩ <;> cases e8 <;>
    cases e5 <;> simp at hs hp ⊢
  all_goals
    intro h
    simp [h]

theorem tick_at_upper_disables_witness :
    ((maintainLoop cfg80 (allOk 4242)).run
        worldHigh).2.controller.Cmd = none ∧
    ((maintainLoop cfg80 (allOk 4242)).run
        worldHigh).2.smc.chargingEnabled = false ∧
    (worldHigh.Coherent →
      ((maintainLoop cfg80 (allOk 4242)).run
        worldHigh).2.procs = []) :=
  tick_at_upper_disables cfg80 (allOk 4242) worldHigh
    (by decide) (by decide) rfl (by decide) (by decide)

/-- Claim C3.  With `Limit < 100` and a snapshot with `lower ≤ batteryCharge < Limit`, for
either prior charging state and whatever the outside calls answer: the tick calls none of
`EnableCharging`, `DisableCharging`, `StartCaffeinate`, `StopCaffeinate` (nor launches or
signals a process), and the charging switch, the keep-awake handle and the live processes
are the same after the tick as before. -/
theorem tick_in_band_is_noop (config : Config) (o : Outcomes) (w : World)
    (hu : config.Limit < 100)
    (hlo : config.lowerLimit ≤ w.smc.batteryCharge)
    (hhi : w.smc.batteryCharge < config.Limit) :
    ((maintainLoop config o).run w).2.smc.chargingEnabled = w.smc.chargingEnabled ∧
    ((maintainLoop config o).run w).2.controller = w.controller ∧
    ((maintainLoop config o).run w).2.procs = w.procs ∧
    ∃ calls, ((maintainLoop config o).run w).2.trace = w.trace ++ calls ∧
      Call.EnableCharging ∉ calls ∧ Call.DisableCharging ∉ calls ∧
      Call.StartCaffeinate ∉ calls ∧ Call.StopCaffeinate ∉ calls ∧
      Call.CmdStart ∉ calls ∧ ∀ pid, Call.Kill pid ∉ calls := by
  have h1 : ¬ 100 ≤ config.Limit := by omega
  have h2 : ¬ w.smc.batteryCharge < config.lowerLimit := by omega
  have h3 : ¬ w.smc.batteryCharge ≥ config.Limit := by omega
  rw [maintainLoop_run]
  obtain ⟨e1, e2, e3, e4, e5, e6, st, e8⟩ := o
  obtain ⟨lim, dl, led⟩ := config
  obtain ⟨⟨ce, bc, pl, ms⟩, ⟨cmd⟩, ip, en, procs, tr⟩ := w
  simp only at h1 h2 h3
  simp only [maintainLoopUnrolled, enableStep, disableStep,
    World.log, World.setCharging, World.setInProgress, h1, h2, h3]
  cases e1 <;> cases e2 <;> cases e3 <;> simp

theorem tick_in_band_is_noop_witness :
    ((maintainLoop cfg80 (allOk 4242)).run
        worldMid).2.smc.chargingEnabled =
      worldMid.smc.chargingEnabled ∧
    ((maintainLoop cfg80 (allOk 4242)).run
        worldMid).2.controller =
      worldMid.controller ∧
    ((maintainLoop cfg80 (allOk 4242)).run
        worldMid).2.procs =
      worldMid.procs ∧
    ∃ calls, ((maintainLoop cfg80 (allOk 4242)).run
        worldMid).2.trace =
        worldMid.trace ++ calls ∧
      Call.EnableCharging ∉ calls ∧ Call.DisableCharging ∉ calls ∧
      Call.StartCaffeinate ∉ calls ∧ Call.StopCaffeinate ∉ calls ∧
      Call.CmdStart ∉ calls ∧ ∀ pid, Call.Kill pid ∉ calls :=
  tick_in_band_is_noop cfg80 (allOk 4242) worldMid
    (by decide) (by decide) (by decide)

/-- Claim C4.  With `Limit = 100`, for every state: if the tick returns `true` then
afterwards charging is enabled and `maintainedChargingInProgress` is `true`, and
`EnableCharging` is among the calls of the tick exactly when charging was not enabled
before. -/
theorem tick_limit_100_charges (config : Config) (o : Outcomes) (w : World)
    (hu : config.Limit = 100)
    (hs : ((maintainLoop config o).run w).1 = true) :
    ((maintainLoop config o).run w).2.smc.chargingEnabled = true ∧
    ((maintainLoop config o).run w).2.maintainedChargingInProgress = true ∧
    ∃ calls, ((maintainLoop config o).run w).2.trace = w.trace ++ calls ∧
      (Call.EnableCharging ∈ calls ↔ w.smc.chargingEnabled = false) := by
  have h1 : 100 ≤ config.Limit := by omega
  rw [maintainLoop_run] at hs ⊢
  obtain ⟨e1, e2, e3, e4, e5, e6, st, e8⟩ := o
  obtain ⟨⟨ce, bc, pl, ms⟩, ⟨cmd⟩, ip, en, procs, tr⟩ := w
  simp only [maintainLoopUnrolled,
    World.log, World.setCharging, World.setInProgress, World.setLed, h1] at hs ⊢
  cases e1 <;> cases ce <;> cases e4 <;> simp at hs ⊢

theorem tick_limit_100_charges_witness :
    ((maintainLoop cfg100 (allOk 4242)).run
        worldHalf).2.smc.chargingEnabled = true ∧
    ((maintainLoop cfg100 (allOk 4242)).run
        worldHalf).2.maintainedChargingInProgress = true ∧
    ∃ calls, ((maintainLoop cfg100 (allOk 4242)).run
        worldHalf).2.trace = worldHalf.trace ++ calls ∧
      (Call.EnableCharging ∈ calls ↔ worldHalf.smc.chargingEnabled = false) :=
  tick_limit_100_charges cfg100 (allOk 4242) worldHalf
    rfl (by decide)

/-- Claim C5.  For a validated configuration with `Limit < 100`, every state and every
answer of the outside calls: the tick never calls both `EnableCharging` and
`DisableCharging`, never both `StartCaffeinate` and `StopCaffeinate`; the conditions of the
two `if` blocks exclude each other; and when the three reads succeed, exactly one case
applies: under the enable condition the tick starts keep-awake and makes no stop or disable
call, under the disable condition it stops keep-awake and makes no start or enable call, and
otherwise it makes none of the four calls. -/
theorem tick_exactly_one_step (config : Config) (o : Outcomes) (w : World)
    (hv : config.Valid) (hu : config.Limit < 100) :
    ∃ calls, ((maintainLoop config o).run w).2.trace = w.trace ++ calls ∧
      ¬ (Call.EnableCharging ∈ calls ∧ Call.DisableCharging ∈ calls) ∧
      ¬ (Call.StartCaffeinate ∈ calls ∧ Call.StopCaffeinate ∈ calls) ∧
      ¬ (enableCondition config w ∧ disableCondition config w) ∧
      (o.readsOk →
        (enableCondition config w →
          Call.StartCaffeinate ∈ calls ∧ Call.StopCaffeinate ∉ calls ∧
            Call.DisableCharging ∉ calls) ∧
        (disableCondition config w →
          Call.StopCaffeinate ∈ calls ∧ Call.StartCaffeinate ∉ calls ∧
            Call.EnableCharging ∉ calls) ∧
        (¬ enableCondition config w → ¬ disableCondition config w →
          Call.StartCaffeinate ∉ calls ∧ Call.EnableCharging ∉ calls ∧
            Call.StopCaffeinate ∉ calls ∧ Call.DisableCharging ∉ calls)) := by
  obtain ⟨-, hle⟩ := lowerLimit_of_valid config hv
  have h1 : ¬ 100 ≤ config.Limit := by omega
  have hex : ¬ (enableCondition config w ∧ disableCondition config w) := by
    rintro ⟨⟨-, h2⟩, ⟨-, h3⟩⟩
    simp [h2] at h3
  suffices h : ∃ calls, ((maintainLoop config o).run w).2.trace = w.trace ++ calls ∧
      ¬ (Call.EnableCharging ∈ calls ∧ Call.DisableCharging ∈ calls) ∧
      ¬ (Call.StartCaffeinate ∈ calls ∧ Call.StopCaffeinate ∈ calls) ∧
      (o.readsOk →
        (enableCondition config w →
          Call.StartCaffeinate ∈ calls ∧ Call.StopCaffeinate ∉ calls ∧
            Call.DisableCharging ∉ calls) ∧
        (disableCondition config w →
          Call.StopCaffeinate ∈ calls ∧ Call.StartCaffeinate ∉ calls ∧
            Call.EnableCharging ∉ calls) ∧
        (¬ enableCondition config w → ¬ disableCondition config w →
          Call.StartCaffeinate ∉ calls ∧ Call.EnableCharging ∉ calls ∧
            Call.StopCaffeinate ∉ calls ∧ Call.DisableCharging ∉ calls)) by
    obtain ⟨calls, h2, h3, h4, h5⟩ := h
    exact ⟨calls, h2, h3, h4, hex, h5⟩
  rw [maintainLoop_run]
  obtain ⟨e1, e2, e3, e4, e5, e6, st, e8⟩ := o
  obtain ⟨⟨ce, bc, pl, ms⟩, ⟨cmd⟩, ip, en, procs, tr⟩ := w
  simp only [maintainLoopUnrolled, enableStep, disableStep, StartCaffeinate_run,
    StopCaffeinate_run, World.log, World.setCharging, World.setInProgress,
    enableCondition, disableCondition, Outcomes.readsOk, h1]
  cases e1
  swap
  · exact ⟨_, rfl, by simp⟩
  cases e2
  swap
  · exact ⟨_, by simp; rfl, by simp⟩
  cases e3
  swap
  · exact ⟨_, by simp; rfl, by simp⟩
  simp only [Bool.false_eq_true, if_false, true_and, forall_const]
  by_cases hlow : bc < config.lowerLimit
  · have hup : ¬ bc ≥ config.Limit := by omega
    cases ce <;> rcases cmd with _ | ⟨_ | pid⟩ <;> cases st <;> cases e4 <;> simp [hlow, hup]
  · by_cases hup : bc ≥ config.Limit
    · cases ce <;> rcases cmd with _ | ⟨_ | pid⟩ <;> cases e8 <;> cases e5 <;> simp [hlow, hup]
    · cases ce <;> simp [hlow, hup]

theorem tick_exactly_one_step_witness :
    ∃ calls, ((maintainLoop cfg80 (allOk 4242)).run worldLow).2.trace =
        worldLow.trace ++ calls ∧
      ¬ (Call.EnableCharging ∈ calls ∧ Call.DisableCharging ∈ calls) ∧
      ¬ (Call.StartCaffeinate ∈ calls ∧ Call.StopCaffeinate ∈ calls) ∧
      ¬ (enableCondition cfg80 worldLow ∧
          disableCondition cfg80 worldLow) ∧
      ((allOk 4242).readsOk →
        (enableCondition cfg80 worldLow →
          Call.StartCaffeinate ∈ calls ∧ Call.StopCaffeinate ∉ calls ∧
            Call.DisableCharging ∉ calls) ∧
        (disableCondition cfg80 worldLow →
          Call.StopCaffeinate ∈ calls ∧ Call.StartCaffeinate ∉ calls ∧
            Call.EnableCharging ∉ calls) ∧
        (¬ enableCondition cfg80 worldLow →
          ¬ disableCondition cfg80 worldLow →
          Call.StartCaffeinate ∉ calls ∧ Call.EnableCharging ∉ calls ∧
            Call.StopCaffeinate ∉ calls ∧ Call.DisableCharging ∉ calls)) :=
  tick_exactly_one_step cfg80 (allOk 4242) worldLow (by decide) (by decide)

/-- Without the validation both blocks can run in one tick: with a negative delta the lower
limit lies above the upper one, and a charge between them is enabled and then disabled. -/
theorem both_blocks_run_when_delta_negative :
    ((maintainLoop { cfg80 with LowerLimitDelta := -5 } (allOk 4242)).run
        (mkWorld 82 false true none [])).2.trace =
      [.IsChargingEnabled, .GetBatteryCharge, .IsPluggedIn, .StartCaffeinate, .CmdStart,
       .EnableCharging, .StopCaffeinate, .Kill 4242, .DisableCharging] := by
  decide

/-- Claim C6.  In the enable step (`Limit < 100`, reads succeed, `batteryCharge < lower`,
not charging): every `EnableCharging` in the calls of the tick has a `StartCaffeinate`
before it; `EnableCharging` is called only if `StartCaffeinate` returned `nil`; and if
`StartCaffeinate` returns an error the tick returns `false`, `EnableCharging` is not called
and charging is still disabled. -/
theorem enable_only_after_keepawake_started (config : Config) (o : Outcomes) (w : World)
    (hu : config.Limit < 100) (hr : o.readsOk) (hen : enableCondition config w) :
    ∃ calls, ((maintainLoop config o).run w).2.trace = w.trace ++ calls ∧
      (∀ l1 l2, calls = l1 ++ Call.EnableCharging :: l2 → Call.StartCaffeinate ∈ l1) ∧
      (Call.EnableCharging ∈ calls → ((StartCaffeinate o.cmdStart).run w).1 = none) ∧
      (((StartCaffeinate o.cmdStart).run w).1 ≠ none →
        ((maintainLoop config o).run w).1 = false ∧ Call.EnableCharging ∉ calls ∧
          ((maintainLoop config o).run w).2.smc.chargingEnabled = false) := by
  suffices h : ∃ calls, ((maintainLoop config o).run w).2.trace = w.trace ++ calls ∧
      precedes .StartCaffeinate .EnableCharging calls = true ∧
      (Call.EnableCharging ∈ calls → ((StartCaffeinate o.cmdStart).run w).1 = none) ∧
      (((StartCaffeinate o.cmdStart).run w).1 ≠ none →
        ((maintainLoop config o).run w).1 = false ∧ Call.EnableCharging ∉ calls ∧
          ((maintainLoop config o).run w).2.smc.chargingEnabled = false) by
    obtain ⟨calls, h2, h3, h4⟩ := h
    exact ⟨calls, h2, precedes_spec _ _ (by decide) calls h3, h4⟩
  have h1 : ¬ 100 ≤ config.Limit := by omega
  obtain ⟨hlow, hce⟩ := hen
  obtain ⟨hr1, hr2, hr3⟩ := hr
  rw [maintainLoop_run]
  obtain ⟨e1, e2, e3, e4, e5, e6, st, e8⟩ := o
  obtain ⟨⟨ce, bc, pl, ms⟩, ⟨cmd⟩, ip, en, procs, tr⟩ := w
  simp only at hlow hce hr1 hr2 hr3
  subst hce hr1 hr2 hr3
  simp only [maintainLoopUnrolled, enableStep, disableStep, StartCaffeinate_run,
    StopCaffeinate_run, World.log, World.setCharging, World.setInProgress, h1, hlow]
  by_cases hup : bc ≥ config.Limit
  · rcases cmd with _ | ⟨_ | pid⟩ <;> cases st <;> cases e4 <;> cases e8 <;> cases e5 <;>
      simp [hup, precedes]
  · rcases cmd with _ | ⟨_ | pid⟩ <;> cases st <;> cases e4 <;> simp [hup, precedes]

theorem enable_only_after_keepawake_started_witness :
    ∃ calls, ((maintainLoop cfg80 launchFails).run
        worldLow).2.trace = worldLow.trace ++ calls ∧
      (∀ l1 l2, calls = l1 ++ Call.EnableCharging :: l2 → Call.StartCaffeinate ∈ l1) ∧
      (Call.EnableCharging ∈ calls →
        ((StartCaffeinate launchFails.cmdStart).run
          worldLow).1 = none) ∧
      (((StartCaffeinate launchFails.cmdStart).run
          worldLow).1 ≠ none →
        ((maintainLoop cfg80 launchFails).run
            worldLow).1 = false ∧ Call.EnableCharging ∉ calls ∧
          ((maintainLoop cfg80 launchFails).run
            worldLow).2.smc.chargingEnabled = false) :=
  enable_only_after_keepawake_started cfg80 launchFails
    worldLow (by decide) (by decide) (by decide)

/-- Claim C7.  In the enable step, if `StartCaffeinate` returns `nil` and `EnableCharging`
fails: the tick returns `false`, the keep-awake handle is present afterwards, charging is
still disabled, and the tick made no `StopCaffeinate`, `Kill` or `DisableCharging` call.  If
there was no handle before, the process launched in this tick is the one the handle holds
and it is still among the live processes. -/
theorem enable_failure_leaves_keepawake_running (config : Config) (o : Outcomes) (w : World)
    (hu : config.Limit < 100) (hr : o.readsOk) (hen : enableCondition config w)
    (hstart : ((StartCaffeinate o.cmdStart).run w).1 = none)
    (hfail : o.enableChargingErr = true) :
    ((maintainLoop config o).run w).1 = false ∧
    ((maintainLoop config o).run w).2.controller.Cmd ≠ none ∧
    ((maintainLoop config o).run w).2.smc.chargingEnabled = false ∧
    (w.controller.Cmd = none → ∃ pid, o.cmdStart = some pid ∧
      ((maintainLoop config o).run w).2.controller.Cmd = some { Process := some pid } ∧
      pid ∈ ((maintainLoop config o).run w).2.procs) ∧
    ∃ calls, ((maintainLoop config o).run w).2.trace = w.trace ++ calls ∧
      Call.StartCaffeinate ∈ calls ∧ Call.EnableCharging ∈ calls ∧
      Call.StopCaffeinate ∉ calls ∧ (∀ pid, Call.Kill pid ∉ calls) ∧
      Call.DisableCharging ∉ calls := by
  have h1 : ¬ 100 ≤ config.Limit := by omega
  obtain ⟨hlow, hce⟩ := hen
  obtain ⟨hr1, hr2, hr3⟩ := hr
  rw [maintainLoop_run]
  obtain ⟨e1, e2, e3, e4, e5, e6, st, e8⟩ := o
  obtain ⟨⟨ce, bc, pl, ms⟩, ⟨cmd⟩, ip, en, procs, tr⟩ := w
  simp only at hlow hce hr1 hr2 hr3 hfail
  subst hce hr1 hr2 hr3 hfail
  simp only [maintainLoopUnrolled, enableStep, disableStep, StartCaffeinate_run,
    World.log, World.setCharging, World.setInProgress, h1, hlow] at hstart ⊢
  rcases cmd with _ | ⟨_ | pid⟩ <;> cases st <;> simp at hstart ⊢

theorem enable_failure_leaves_keepawake_running_witness :
    ((maintainLoop cfg80 enableFails).run
        worldLow).1 = false ∧
    ((maintainLoop cfg80 enableFails).run
        worldLow).2.controller.Cmd ≠ none ∧
    ((maintainLoop cfg80 enableFails).run
        worldLow).2.smc.chargingEnabled = false ∧
    (worldLow.controller.Cmd = none → ∃ pid,
      enableFails.cmdStart = some pid ∧
      ((maintainLoop cfg80 enableFails).run
        worldLow).2.controller.Cmd = some { Process := some pid } ∧
      pid ∈ ((maintainLoop cfg80 enableFails).run
        worldLow).2.procs) ∧
    ∃ calls, ((maintainLoop cfg80 enableFails).run
        worldLow).2.trace = worldLow.trace ++ calls ∧
      Call.StartCaffeinate ∈ calls ∧ Call.EnableCharging ∈ calls ∧
      Call.StopCaffeinate ∉ calls ∧ (∀ pid, Call.Kill pid ∉ calls) ∧
      Call.DisableCharging ∉ calls :=
  enable_failure_leaves_keepawake_running cfg80 enableFails
    worldLow (by decide) (by decide) (by decide) (by decide) rfl

/-- Claim C8.  In the disable step (`Limit < 100`, reads succeed, `batteryCharge ≥ Limit`,
charging): every `DisableCharging` in the calls of the tick has a `StopCaffeinate` before
it; `DisableCharging` is called only if `StopCaffeinate` returned `nil`; and if
`StopCaffeinate` returns an error the tick returns `false`, `DisableCharging` is not called,
charging is still enabled with the charge at or above the limit, and the handle is
unchanged. -/
theorem disable_only_after_keepawake_stopped (config : Config) (o : Outcomes) (w : World)
    (hu : config.Limit < 100) (hr : o.readsOk) (hdis : disableCondition config w) :
    ∃ calls, ((maintainLoop config o).run w).2.trace = w.trace ++ calls ∧
      (∀ l1 l2, calls = l1 ++ Call.DisableCharging :: l2 → Call.StopCaffeinate ∈ l1) ∧
      (Call.DisableCharging ∈ calls → ((StopCaffeinate o.killErr).run w).1 = none) ∧
      (((StopCaffeinate o.killErr).run w).1 ≠ none →
        ((maintainLoop config o).run w).1 = false ∧ Call.DisableCharging ∉ calls ∧
          ((maintainLoop config o).run w).2.smc.chargingEnabled = true ∧
          ((maintainLoop config o).run w).2.smc.batteryCharge ≥ config.Limit ∧
          ((maintainLoop config o).run w).2.controller = w.controller) := by
  suffices h : ∃ calls, ((maintainLoop config o).run w).2.trace = w.trace ++ calls ∧
      precedes .StopCaffeinate .DisableCharging calls = true ∧
      (Call.DisableCharging ∈ calls → ((StopCaffeinate o.killErr).run w).1 = none) ∧
      (((StopCaffeinate o.killErr).run w).1 ≠ none →
        ((maintainLoop config o).run w).1 = false ∧ Call.DisableCharging ∉ calls ∧
          ((maintainLoop config o).run w).2.smc.chargingEnabled = true ∧
          ((maintainLoop config o).run w).2.smc.batteryCharge ≥ config.Limit ∧
          ((maintainLoop config o).run w).2.controller = w.controller) by
    obtain ⟨calls, h2, h3, h4⟩ := h
    exact ⟨calls, h2, precedes_spec _ _ (by decide) calls h3, h4⟩
  have h1 : ¬ 100 ≤ config.Limit := by omega
  obtain ⟨hup, hce⟩ := hdis
  obtain ⟨hr1, hr2, hr3⟩ := hr
  rw [maintainLoop_run]
  obtain ⟨e1, e2, e3, e4, e5, e6, st, e8⟩ := o
  obtain ⟨⟨ce, bc, pl, ms⟩, ⟨cmd⟩, ip, en, procs, tr⟩ := w
  simp only at hup hce hr1 hr2 hr3
  subst hce hr1 hr2 hr3
  simp only [maintainLoopUnrolled, enableStep, disableStep,
    StopCaffeinate_run, World.log, World.setCharging, World.setInProgress, h1, hup]
  rcases cmd with _ | ⟨_ | pid⟩ <;> cases e8 <;> cases e5 <;> simp [hup, precedes]

theorem disable_only_after_keepawake_stopped_witness :
    ∃ calls, ((maintainLoop cfg80 killFails).run
        worldHigh).2.trace =
        worldHigh.trace ++ calls ∧
      (∀ l1 l2, calls = l1 ++ Call.DisableCharging :: l2 → Call.StopCaffeinate ∈ l1) ∧
      (Call.DisableCharging ∈ calls →
        ((StopCaffeinate killFails.killErr).run
          worldHigh).1 = none) ∧
      (((StopCaffeinate killFails.killErr).run
          worldHigh).1 ≠ none →
        ((maintainLoop cfg80 killFails).run
            worldHigh).1 = false ∧
          Call.DisableCharging ∉ calls ∧
          ((maintainLoop cfg80 killFails).run
            worldHigh).2.smc.chargingEnabled = true ∧
          ((maintainLoop cfg80 killFails).run
            worldHigh).2.smc.batteryCharge ≥
            cfg80.Limit ∧
          ((maintainLoop cfg80 killFails).run
            worldHigh).2.controller =
            worldHigh.controller) :=
  disable_only_after_keepawake_stopped cfg80 killFails
    worldHigh (by decide) (by decide) (by decide)

/-! ## The keep-awake controller -/

theorem coherent_init (smc : Smc) : (World.init smc).Coherent := by
  simp [World.init, World.Coherent]

theorem StartCaffeinate_coherent (start : Option Nat) (w : World) (h : w.Coherent) :
    ((StartCaffeinate start).run w).2.Coherent := by
  rw [StartCaffeinate_run]
  obtain ⟨smc, ⟨cmd⟩, ip, en, procs, tr⟩ := w
  rcases cmd with _ | ⟨_ | pid⟩ <;> cases start <;>
    simp_all [World.Coherent, World.log]

theorem StopCaffeinate_coherent (killErr : Bool) (w : World) (h : w.Coherent) :
    ((StopCaffeinate killErr).run w).2.Coherent := by
  rw [StopCaffeinate_run]
  obtain ⟨smc, ⟨cmd⟩, ip, en, procs, tr⟩ := w
  rcases cmd with _ | ⟨_ | pid⟩ <;> cases killErr <;>
    simp_all [World.Coherent, World.log]

theorem runCaffeinate_coherent (calls : List CaffeinateCall) (w : World) (h : w.Coherent) :
    (runCaffeinate calls w).Coherent := by
  induction calls generalizing w with
  | nil => exact h
  | cons c rest ih =>
    cases c with
    | start launch => exact ih _ (StartCaffeinate_coherent launch w h)
    | stop killErr => exact ih _ (StopCaffeinate_coherent killErr w h)

theorem coherent_procs_length (w : World) (h : w.Coherent) : w.procs.length ≤ 1 := by
  obtain ⟨smc, ⟨cmd⟩, ip, en, procs, tr⟩ := w
  rcases cmd with _ | ⟨_ | pid⟩ <;> simp_all [World.Coherent]

theorem coherent_started (w : World) (h : w.Coherent) : w.controller.Started := by
  obtain ⟨smc, ⟨cmd⟩, ip, en, procs, tr⟩ := w
  rcases cmd with _ | ⟨_ | pid⟩ <;> simp_all [World.Coherent, CaffeinateController.Started]

@[simp] theorem log_coherent (w : World) (c : Call) : (w.log c).Coherent ↔ w.Coherent := Iff.rfl

@[simp] theorem setCharging_coherent (w : World) (b : Bool) :
    (w.setCharging b).Coherent ↔ w.Coherent := Iff.rfl

@[simp] theorem setInProgress_coherent (w : World) (b : Bool) :
    (w.setInProgress b).Coherent ↔ w.Coherent := Iff.rfl

@[simp] theorem ledStep_coherent (config : Config) (o : Outcomes) (b : Bool) (w : World) :
    (ledStep config o b w).2.Coherent ↔ w.Coherent := by
  unfold ledStep; split_ifs <;> exact Iff.rfl

theorem disableStep_coherent (config : Config) (o : Outcomes) (bc : Int) (b : Bool) (w : World)
    (h : w.Coherent) : (disableStep config o bc b w).2.Coherent := by
  unfold disableStep
  have hstop := StopCaffeinate_coherent o.killErr w h
  generalize (StopCaffeinate o.killErr).run w = r at hstop
  obtain ⟨err, w1⟩ := r
  cases err <;> split_ifs <;> simp_all

theorem enableStep_coherent (config : Config) (o : Outcomes) (bc : Int) (b : Bool) (w : World)
    (h : w.Coherent) : (enableStep config o bc b w).2.Coherent := by
  unfold enableStep
  have hstart := StartCaffeinate_coherent o.cmdStart w h
  generalize (StartCaffeinate o.cmdStart).run w = r at hstart
  obtain ⟨err, w1⟩ := r
  cases err <;> split_ifs <;>
    first
      | exact disableStep_coherent _ _ _ _ _ (by simpa using hstart)
      | exact disableStep_coherent _ _ _ _ _ h
      | simpa using hstart

/-- A tick keeps the handle and the live process groups in agreement. -/
theorem maintainLoop_coherent (config : Config) (o : Outcomes) (w : World) (h : w.Coherent) :
    ((maintainLoop config o).run w).2.Coherent := by
  rw [maintainLoop_run]
  unfold maintainLoopUnrolled
  split_ifs <;>
    first
      | exact enableStep_coherent _ _ _ _ _ (by simpa using h)
      | simpa using h

/-- Claim C9.  After any sequence of `StartCaffeinate` / `StopCaffeinate` calls from program
start, each launch or signal succeeding or failing, at most one process is launched and not
yet successfully signalled.  If one more `StartCaffeinate` returns `nil`, exactly one such
process exists, and a second `StartCaffeinate` right after it returns `nil` and changes
nothing but the trace entry of the call itself: it launches nothing. -/
theorem keepawake_at_most_one_process (smc : Smc) (calls : List CaffeinateCall) :
    (runCaffeinate calls (World.init smc)).procs.length ≤ 1 ∧
    ∀ launch1 launch2 : Option Nat,
      ((StartCaffeinate launch1).run (runCaffeinate calls (World.init smc))).1 = none →
      ((StartCaffeinate launch1).run (runCaffeinate calls (World.init smc))).2.procs.length = 1 ∧
      (StartCaffeinate launch2).run
          ((StartCaffeinate launch1).run (runCaffeinate calls (World.init smc))).2 =
        (none, ((StartCaffeinate launch1).run (runCaffeinate calls (World.init smc))).2.log
          .StartCaffeinate) := by
  have hco := runCaffeinate_coherent calls (World.init smc) (coherent_init smc)
  refine ⟨coherent_procs_length _ hco, ?_⟩
  generalize runCaffeinate calls (World.init smc) = w at hco
  intro launch1 launch2 hok
  rw [StartCaffeinate_run] at hok ⊢
  rw [StartCaffeinate_run]
  obtain ⟨s, ⟨cmd⟩, ip, en, procs, tr⟩ := w
  rcases cmd with _ | ⟨_ | pid⟩ <;> cases launch1 <;>
    simp_all [World.Coherent, World.log]

/-- Two starts in a row at program start: one launch, and the second call only logs itself. -/
theorem two_starts_launch_once (smc : Smc) :
    (runCaffeinate [.start (some 4242), .start (some 4243)] (World.init smc)).procs = [4242] ∧
    (runCaffeinate [.start (some 4242), .start (some 4243)] (World.init smc)).trace =
      [.StartCaffeinate, .CmdStart, .StartCaffeinate] := by
  simp [runCaffeinate, StartCaffeinate_run, World.init, World.log]

/-! ## The resume countdown -/

theorem ticksWanted_of_nonneg (seconds : Int) (h0 : 0 ≤ seconds)
    (hmax : seconds * 1000 < 9223372036854775808) : ticksWanted seconds = 4 * seconds := by
  unfold ticksWanted
  have hw : wrapInt64 (seconds * 1000) = seconds * 1000 := by
    unfold wrapInt64; omega
  rw [hw, Int.tdiv_eq_ediv (by omega) (by omega)]
  omega

theorem innerLoop_fired_succ (seconds : Int) (signal : Nat → Bool) (n t : Nat)
    (h : innerLoop seconds signal n = .fired t) :
    innerLoop seconds signal (n + 1) = .fired t := by
  simp [innerLoop, h]

theorem innerLoop_fired_mono (seconds : Int) (signal : Nat → Bool) (n t : Nat)
    (h : innerLoop seconds signal n = .fired t) (m : Nat) :
    innerLoop seconds signal (n + m) = .fired t := by
  induction m with
  | zero => exact h
  | succ m ih => exact innerLoop_fired_succ seconds signal (n + m) t ih

theorem innerLoop_counting_before (seconds : Int) (signal : Nat → Bool) (m : Nat) (e : Int)
    (h : innerLoop seconds signal m = .counting e) (n : Nat) (hn : n ≤ m) :
    ∃ e1, innerLoop seconds signal n = .counting e1 := by
  cases hs : innerLoop seconds signal n with
  | counting e1 => exact ⟨e1, rfl⟩
  | fired t =>
    have := innerLoop_fired_mono seconds signal n t hs (m - n)
    rw [Nat.add_sub_cancel' hn, h] at this
    cases this

theorem innerLoop_step_counting (seconds : Int) (signal : Nat → Bool) (n : Nat) (e : Int)
    (h : innerLoop seconds signal n = .counting e) (hsig : signal (n + 1) = false)
    (he0 : 0 ≤ e) (he : e + 1 ≤ ticksWanted seconds)
    (hw : ticksWanted seconds < 9223372036854775807) :
    innerLoop seconds signal (n + 1) = .counting (e + 1) := by
  have hwrap : wrapInt64 (e + 1) = e + 1 := by unfold wrapInt64; omega
  have hng : ¬ e + 1 > ticksWanted seconds := by omega
  simp [innerLoop, h, tickBody, hsig, hwrap, hng]

theorem innerLoop_run_counting (seconds : Int) (signal : Nat → Bool) (n : Nat) (e : Int)
    (h : innerLoop seconds signal n = .counting e) (he0 : 0 ≤ e)
    (hw : ticksWanted seconds < 9223372036854775807) (j : Nat)
    (hj : e + j ≤ ticksWanted seconds)
    (hsig : ∀ i, n < i → i ≤ n + j → signal i = false) :
    innerLoop seconds signal (n + j) = .counting (e + j) := by
  induction j with
  | zero => simpa using h
  | succ j ih =>
    have h1 := ih (by push_cast at hj; omega) (fun i hi1 hi2 => hsig i hi1 (by omega))
    have h2 := innerLoop_step_counting seconds signal (n + j) (e + j) h1
      (hsig (n + j + 1) (by omega) (by omega)) (by omega) (by push_cast at hj; omega) hw
    rw [← Nat.add_assoc]
    rw [h2]
    push_cast
    rw [Int.add_assoc]

/-- Claim C10.  For a duration `seconds ≥ 0` (with `seconds * 1000` a Go `int`): if the
countdown is still counting after tick `k - 1`, a start request is taken by the `select` at
tick `k`, and none is waiting at the ticks after `k` up to `k + ticksWanted`, then `action()`
is called at tick `k + ticksWanted` and at no earlier tick.  `ticksWanted` ticks of 250 ms
are the full configured duration. -/
theorem countdown_restart_delays_action (seconds : Int) (signal : Nat → Bool) (k : Nat)
    (h0 : 0 ≤ seconds) (hmax : seconds * 1000 < 9223372036854775808)
    (hk : 1 ≤ k)
    (hcount : ∃ e, innerLoop seconds signal (k - 1) = .counting e)
    (hsig : signal k = true)
    (hlast : ∀ j, k < j → j ≤ k + (ticksWanted seconds).toNat → signal j = false) :
    innerLoop seconds signal (k + (ticksWanted seconds).toNat) =
      .fired (k + (ticksWanted seconds).toNat) ∧
    (∀ n, n < k + (ticksWanted seconds).toNat →
      ∃ e, innerLoop seconds signal n = .counting e) ∧
    ticksWanted seconds * 250 = seconds * 1000 := by
  have hW := ticksWanted_of_nonneg seconds h0 hmax
  obtain ⟨e, he⟩ := hcount
  obtain ⟨k, rfl⟩ : ∃ k0, k = k0 + 1 := ⟨k - 1, by omega⟩
  simp only [Nat.add_sub_cancel] at he
  have hw1 : wrapInt64 1 = 1 := by decide
  refine ⟨?_, ?_, by omega⟩
  · -- the tick that fires
    by_cases hz : ticksWanted seconds = 0
    · simp [hz, innerLoop, he, tickBody, hsig, hw1]
    · have hpos : 1 ≤ ticksWanted seconds := by omega
      have hk1 : innerLoop seconds signal (k + 1) = .counting 1 := by
        have hng : ¬ (1 : Int) > ticksWanted seconds := by omega
        simp [innerLoop, he, tickBody, hsig, hw1, hng]
      obtain ⟨W, hWn⟩ : ∃ W : Nat, ticksWanted seconds = (W : Int) + 1 :=
        ⟨(ticksWanted seconds - 1).toNat, by omega⟩
      have htn : (ticksWanted seconds).toNat = W + 1 := by omega
      rw [htn] at hlast ⊢
      have hrun := innerLoop_run_counting seconds signal (k + 1) 1 hk1 (by omega) (by omega) W
        (by omega) (fun i hi1 hi2 => hlast i hi1 (by omega))
      have hwrap : wrapInt64 ((1 : Int) + W + 1) = 1 + W + 1 := by unfold wrapInt64; omega
      have hgt : (1 : Int) + W + 1 > ticksWanted seconds := by omega
      have hs : signal (k + 1 + W + 1) = false := hlast _ (by omega) (by omega)
      have : k + 1 + (W + 1) = (k + 1 + W) + 1 := by omega
      rw [this]
      simp [innerLoop, hrun, tickBody, hs, hwrap, hgt]
  · -- no earlier tick fires
    intro n hn
    by_cases hnk : n ≤ k
    · exact innerLoop_counting_before seconds signal k e he n hnk
    · have hpos : 1 ≤ ticksWanted seconds := by omega
      have hk1 : innerLoop seconds signal (k + 1) = .counting 1 := by
        have hng : ¬ (1 : Int) > ticksWanted seconds := by omega
        simp [innerLoop, he, tickBody, hsig, hw1, hng]
      obtain ⟨j, rfl⟩ : ∃ j, n = k + 1 + j := ⟨n - (k + 1), by omega⟩
      exact ⟨_, innerLoop_run_counting seconds signal (k + 1) 1 hk1 (by omega) (by omega) j
        (by omega) (fun i hi1 hi2 => hlast i hi1 (by omega))⟩

theorem countdown_restart_delays_action_witness :
    innerLoop 1 restartAtTick1 (1 + (ticksWanted 1).toNat) =
      .fired (1 + (ticksWanted 1).toNat) ∧
    (∀ n, n < 1 + (ticksWanted 1).toNat →
      ∃ e, innerLoop 1 restartAtTick1 n = .counting e) ∧
    ticksWanted 1 * 250 = 1 * 1000 :=
  countdown_restart_delays_action 1 restartAtTick1 1 (by decide) (by decide)
    (by decide) ⟨0, rfl⟩ (by decide) (fun j h1 _ => by simp [restartAtTick1]; omega)

/-- The example of the spec in ticks: start at tick 0, a second start taken at tick 1
(250 ms), one-second countdown.  Tick 4 (1000 ms) does not fire, tick 5 (1250 ms) does. -/
theorem countdown_restart_example :
    ticksWanted 1 = 4 ∧
    innerLoop 1 restartAtTick1 4 = .counting 4 ∧
    innerLoop 1 restartAtTick1 5 = .fired 5 := by
  decide

/-- A lone start request: after `ticksWanted` ticks the goroutine is still counting, with
`ticksElapsed = ticksWanted`; it calls `action()` one tick later. -/
theorem innerLoop_lone_start (seconds : Int) (h0 : 0 ≤ seconds)
    (hmax : seconds * 1000 < 9223372036854775808) :
    innerLoop seconds (fun _ => false) (ticksWanted seconds).toNat =
      .counting (ticksWanted seconds) ∧
    innerLoop seconds (fun _ => false) ((ticksWanted seconds).toNat + 1) =
      .fired ((ticksWanted seconds).toNat + 1) := by
  have hW := ticksWanted_of_nonneg seconds h0 hmax
  have hrun := innerLoop_run_counting seconds (fun _ => false) 0 0 rfl (by omega) (by omega)
    (ticksWanted seconds).toNat (by omega) (fun _ _ _ => rfl)
  have hcast : (0 : Int) + ((ticksWanted seconds).toNat : Int) = ticksWanted seconds := by omega
  rw [Nat.zero_add, hcast] at hrun
  refine ⟨hrun, ?_⟩
  have hwrap : wrapInt64 (ticksWanted seconds + 1) = ticksWanted seconds + 1 := by
    unfold wrapInt64; omega
  simp [innerLoop, hrun, tickBody, hwrap]

/-- Claim C11, which the code does not meet.  For the countdown the daemon builds
(`seconds = 30`, so `ticksWanted = 120`) and a single start request: at tick 120 the elapsed
time, 120 ticks of 250 ms, has reached the configured 30 s, yet the goroutine is still
counting; `action()` is called at tick 121. -/
theorem countdown_lone_start_fires_one_tick_late :
    ticksWanted postSleepLoopDelaySeconds = 120 ∧
    ticksWanted postSleepLoopDelaySeconds * 250 = postSleepLoopDelaySeconds * 1000 ∧
    innerLoop postSleepLoopDelaySeconds (fun _ => false) 120 = .counting 120 ∧
    innerLoop postSleepLoopDelaySeconds (fun _ => false) 121 = .fired 121 := by
  have hW : ticksWanted postSleepLoopDelaySeconds = 120 := by decide
  have h := innerLoop_lone_start postSleepLoopDelaySeconds (by decide) (by decide)
  rw [hW] at h
  exact ⟨hW, by decide, h.1, h.2⟩

/-! ## The goroutine of the countdown -/

theorem countDownStep_quiet {σ : Type} (action : σ → σ) (seconds : Int) (t : CountDown) (s : σ)
    (e : Int) (hp : t.phase = .counting e) (hpend : t.pending = 0) (he0 : 0 ≤ e)
    (he : e + 1 ≤ ticksWanted seconds) (hw : ticksWanted seconds < 9223372036854775807) :
    countDownStep action seconds .tick (t, s) = ({ t with phase := .counting (e + 1) }, s) := by
  have hwrap : wrapInt64 (e + 1) = e + 1 := by unfold wrapInt64; omega
  have hng : ¬ ticksWanted seconds < e + 1 := by omega
  obtain ⟨ph, pend, act⟩ := t
  simp only at hp hpend
  subst hp hpend
  simp [countDownStep, tickBody, hwrap, hng]

theorem countDownStep_fire {σ : Type} (action : σ → σ) (seconds : Int) (t : CountDown) (s : σ)
    (hp : t.phase = .counting (ticksWanted seconds)) (hpend : t.pending = 0)
    (hw0 : 0 ≤ ticksWanted seconds) (hw : ticksWanted seconds < 9223372036854775807) :
    countDownStep action seconds .tick (t, s) = (idleAfter (t.actions + 1), action s) := by
  have hwrap : wrapInt64 (ticksWanted seconds + 1) = ticksWanted seconds + 1 := by
    unfold wrapInt64; omega
  obtain ⟨ph, pend, act⟩ := t
  simp only at hp hpend
  subst hp hpend
  simp [countDownStep, tickBody, hwrap, idleAfter]

theorem countDownRun_append {σ : Type} (action : σ → σ) (seconds : Int)
    (l1 l2 : List TimerEvent) (t : CountDown × σ) :
    countDownRun action seconds (l1 ++ l2) t =
      countDownRun action seconds l2 (countDownRun action seconds l1 t) := by
  induction l1 generalizing t with
  | nil => rfl
  | cons ev rest ih => exact ih _

theorem countDownRun_quiet {σ : Type} (action : σ → σ) (seconds : Int) (t : CountDown) (s : σ)
    (e : Int) (hp : t.phase = .counting e) (hpend : t.pending = 0) (he0 : 0 ≤ e)
    (hw : ticksWanted seconds < 9223372036854775807) (j : Nat)
    (hj : e + j ≤ ticksWanted seconds) :
    countDownRun action seconds (List.replicate j .tick) (t, s) =
      ({ t with phase := .counting (e + j) }, s) := by
  induction j generalizing t e with
  | zero =>
    obtain ⟨ph, pend, act⟩ := t
    simp only at hp
    subst hp
    simp [countDownRun]
  | succ j ih =>
    rw [List.replicate_succ, countDownRun,
      countDownStep_quiet action seconds t s e hp hpend he0 (by push_cast at hj; omega) hw]
    have h := ih { t with phase := .counting (e + 1) } (e + 1) rfl hpend (by omega)
      (by push_cast at hj; omega)
    rw [h]
    have hsum : e + 1 + (j : Int) = e + ((j + 1 : Nat) : Int) := by push_cast; omega
    rw [hsum]

/-- From a counting goroutine with nothing pending, the ticks still missing lead to exactly
one call of `action()` and back to idle; before the last of them nothing is called. -/
theorem countDownRun_to_fire {σ : Type} (action : σ → σ) (seconds : Int) (t : CountDown) (s : σ)
    (e : Int) (hp : t.phase = .counting e) (hpend : t.pending = 0) (he0 : 0 ≤ e)
    (he : e ≤ ticksWanted seconds) (hw : ticksWanted seconds < 9223372036854775807) :
    countDownRun action seconds
        (List.replicate ((ticksWanted seconds - e).toNat + 1) .tick) (t, s) =
      (idleAfter (t.actions + 1), action s) ∧
    ∀ j, j ≤ (ticksWanted seconds - e).toNat →
      (countDownRun action seconds (List.replicate j .tick) (t, s)).1.actions = t.actions := by
  constructor
  · rw [List.replicate_succ', countDownRun_append,
      countDownRun_quiet action seconds t s e hp hpend he0 hw _ (by omega)]
    have : e + ((ticksWanted seconds - e).toNat : Int) = ticksWanted seconds := by omega
    rw [this]
    simp only [countDownRun]
    exact countDownStep_fire action seconds
      { t with phase := .counting (ticksWanted seconds) } s rfl hpend (by omega) hw
  · intro j hj
    rw [countDownRun_quiet action seconds t s e hp hpend he0 hw j (by omega)]

theorem burstInv_step {σ : Type} (action : σ → σ) (seconds : Int) (a : Nat) (s : σ)
    (h0 : 0 ≤ seconds) (hmax : seconds * 1000 < 9223372036854775808)
    (ev : TimerEvent) (t : CountDown × σ) (hinv : burstInv action seconds a s t)
    (hsent : ev = .send → t.1.actions = a)
    (hcons : seconds = 0 → (countDownStep action seconds ev t).1.actions ≠ a →
      (countDownStep action seconds ev t).1.phase = .idle) :
    burstInv action seconds a s (countDownStep action seconds ev t) := by
  have hW := ticksWanted_of_nonneg seconds h0 hmax
  have hw : ticksWanted seconds < 9223372036854775807 := by omega
  rcases hinv with ⟨hact, hs, e, hp, he0, he⟩ | hidle
  · obtain ⟨⟨ph, pend, act⟩, s1⟩ := t
    simp only at hact hs hp
    subst hact hs hp
    cases ev with
    | send => exact Or.inl ⟨rfl, rfl, e, rfl, he0, he⟩
    | tick =>
      cases pend with
      | zero =>
        by_cases hlt : e + 1 ≤ ticksWanted seconds
        · rw [countDownStep_quiet action seconds _ s1 e rfl rfl he0 hlt hw]
          exact Or.inl ⟨rfl, rfl, e + 1, rfl, by omega, hlt⟩
        · have heq : e = ticksWanted seconds := by omega
          subst heq
          rw [countDownStep_fire action seconds _ s1 rfl rfl he0 hw]
          exact Or.inr rfl
      | succ p =>
        have hw1 : wrapInt64 1 = 1 := by decide
        by_cases hpos : 1 ≤ ticksWanted seconds
        · have hng : ¬ ticksWanted seconds < 1 := by omega
          refine Or.inl ⟨?_, ?_, 1, ?_, by omega, hpos⟩ <;>
            simp [countDownStep, tickBody, hw1, hng]
        · have hz : seconds = 0 := by omega
          have hlt : ticksWanted seconds < 1 := by omega
          cases p with
          | zero =>
            refine Or.inr ?_
            simp [countDownStep, tickBody, hw1, hlt, idleAfter]
          | succ q =>
            have hc := hcons hz
            simp [countDownStep, tickBody, hw1, hlt] at hc
  · subst hidle
    cases ev with
    | send =>
      have := hsent rfl
      simp [idleAfter] at this
    | tick => exact Or.inr rfl

theorem burstInv_run {σ : Type} (action : σ → σ) (seconds : Int) (a : Nat) (s : σ)
    (h0 : 0 ≤ seconds) (hmax : seconds * 1000 < 9223372036854775808)
    (es : List TimerEvent) (t : CountDown × σ) (hinv : burstInv action seconds a s t)
    (hsent : ∀ i, i < es.length → es[i]? = some TimerEvent.send →
      (countDownRun action seconds (es.take i) t).1.actions = a)
    (hcons : seconds = 0 → ∀ i, i ≤ es.length →
      (countDownRun action seconds (es.take i) t).1.actions ≠ a →
      (countDownRun action seconds (es.take i) t).1.phase = .idle) :
    burstInv action seconds a s (countDownRun action seconds es t) := by
  induction es generalizing t with
  | nil => exact hinv
  | cons ev rest ih =>
    have hstep := burstInv_step action seconds a s h0 hmax ev t hinv
      (fun hev => by
        have := hsent 0 (by simp) (by simp [hev])
        simpa [countDownRun] using this)
      (fun hz => by
        have := hcons hz 1 (by simp)
        simpa [countDownRun] using this)
    refine ih _ hstep ?_ ?_
    · intro i hi hget
      have := hsent (i + 1) (by simpa using hi) (by simpa using hget)
      simpa [countDownRun] using this
    · intro hz i hi
      have := hcons hz (i + 1) (by simpa using hi)
      simpa [countDownRun] using this

/-- Claim C12.  For a countdown of `seconds ≥ 0`, idle after `a` calls of `action()`: a first
start request followed by any events `es`, with any number of further start requests, each
sent before `action()` has been called again (and, for a zero duration only, none of them left
pending when it is called).  Then `action()` is called at most once; whenever the goroutine
is idle again it has been called exactly once and nothing is pending; while it is still
counting it has not been called, and once nothing is pending at most `ticksWanted + 1`
further ticks lead to that single call and to idle.  From idle, a later start request begins
a fresh countdown that calls `action()` exactly once, at its tick `ticksWanted + 1`. -/
theorem countdown_burst_fires_once {σ : Type} (action : σ → σ) (seconds : Int) (a : Nat) (s : σ)
    (es : List TimerEvent)
    (h0 : 0 ≤ seconds) (hmax : seconds * 1000 < 9223372036854775808)
    (hsent : ∀ i, i < es.length → es[i]? = some TimerEvent.send →
      (afterStart action seconds a s (es.take i)).1.actions = a)
    (hcons : seconds = 0 → ∀ i, i ≤ es.length →
      (afterStart action seconds a s (es.take i)).1.actions ≠ a →
      (afterStart action seconds a s (es.take i)).1.phase = .idle) :
    (afterStart action seconds a s es).1.actions ≤ a + 1 ∧
    ((afterStart action seconds a s es).1.phase = .idle →
      afterStart action seconds a s es = (idleAfter (a + 1), action s)) ∧
    ((afterStart action seconds a s es).1.phase ≠ .idle →
      (afterStart action seconds a s es).1.actions = a ∧
      (afterStart action seconds a s es).2 = s ∧
      ((afterStart action seconds a s es).1.pending = 0 →
        ∃ m, m ≤ (ticksWanted seconds).toNat + 1 ∧
          countDownRun action seconds (List.replicate m .tick)
            (afterStart action seconds a s es) = (idleAfter (a + 1), action s))) ∧
    (∀ b s1,
      afterStart action seconds b s1
          (List.replicate ((ticksWanted seconds).toNat + 1) .tick) =
        (idleAfter (b + 1), action s1) ∧
      ∀ j, j ≤ (ticksWanted seconds).toNat →
        (afterStart action seconds b s1 (List.replicate j .tick)).1.actions = b) := by
  have hW := ticksWanted_of_nonneg seconds h0 hmax
  have hw : ticksWanted seconds < 9223372036854775807 := by omega
  have hstart : ∀ b s1 l, afterStart action seconds b s1 l =
      countDownRun action seconds l
        ({ phase := .counting 0, pending := 0, actions := b }, s1) := by
    intro b s1 l
    simp [afterStart, countDownRun, countDownStep, idleAfter]
  have hinv : burstInv action seconds a s (afterStart action seconds a s es) := by
    rw [hstart]
    refine burstInv_run action seconds a s h0 hmax es _
      (Or.inl ⟨rfl, rfl, 0, rfl, by omega, by omega⟩) ?_ ?_
    · intro i hi hget
      have := hsent i hi hget
      rwa [hstart] at this
    · intro hz i hi
      have := hcons hz i hi
      rwa [hstart] at this
  refine ⟨?_, ?_, ?_, ?_⟩
  · rcases hinv with ⟨hact, -⟩ | hidle
    · omega
    · rw [hidle]; simp [idleAfter]
  · intro hph
    rcases hinv with ⟨-, -, e, hp, -⟩ | hidle
    · rw [hp] at hph; cases hph
    · exact hidle
  · intro hph
    rcases hinv with ⟨hact, hs, e, hp, he0, he⟩ | hidle
    · generalize afterStart action seconds a s es = T at hact hs hp
      obtain ⟨T1, T2⟩ := T
      simp only at hact hs hp
      subst hs
      refine ⟨hact, rfl, fun hpend => ⟨(ticksWanted seconds - e).toNat + 1, by omega, ?_⟩⟩
      have := (countDownRun_to_fire action seconds T1 T2 e hp hpend he0 he hw).1
      rw [hact] at this
      exact this
    · rw [hidle] at hph
      simp [idleAfter] at hph
  · intro b s1
    have := countDownRun_to_fire action seconds
      { phase := .counting 0, pending := 0, actions := b } s1 0 rfl rfl (by omega) (by omega) hw
    simp only [Int.sub_zero] at this
    refine ⟨?_, ?_⟩
    · rw [hstart]; exact this.1
    · intro j hj
      rw [hstart]; exact this.2 j hj

theorem countdown_burst_fires_once_witness :
    (afterStart (fun n : Nat => n + 1) 1 0 0 twoStarts).1.actions ≤ 0 + 1 ∧
    ((afterStart (fun n : Nat => n + 1) 1 0 0 twoStarts).1.phase = .idle →
      afterStart (fun n : Nat => n + 1) 1 0 0 twoStarts =
        (idleAfter (0 + 1), (fun n : Nat => n + 1) 0)) ∧
    ((afterStart (fun n : Nat => n + 1) 1 0 0 twoStarts).1.phase ≠ .idle →
      (afterStart (fun n : Nat => n + 1) 1 0 0 twoStarts).1.actions = 0 ∧
      (afterStart (fun n : Nat => n + 1) 1 0 0 twoStarts).2 = 0 ∧
      ((afterStart (fun n : Nat => n + 1) 1 0 0 twoStarts).1.pending = 0 →
        ∃ m, m ≤ (ticksWanted 1).toNat + 1 ∧
          countDownRun (fun n : Nat => n + 1) 1 (List.replicate m .tick)
            (afterStart (fun n : Nat => n + 1) 1 0 0 twoStarts) =
              (idleAfter (0 + 1), (fun n : Nat => n + 1) 0))) ∧
    (∀ b s1,
      afterStart (fun n : Nat => n + 1) 1 b s1
          (List.replicate ((ticksWanted 1).toNat + 1) .tick) =
        (idleAfter (b + 1), (fun n : Nat => n + 1) s1) ∧
      ∀ j, j ≤ (ticksWanted 1).toNat →
        (afterStart (fun n : Nat => n + 1) 1 b s1 (List.replicate j .tick)).1.actions = b) :=
  countdown_burst_fires_once (fun n : Nat => n + 1) 1 0 0 twoStarts (by decide) (by decide)
    (by decide) (by decide)

/-- The burst of the example ends idle after exactly one call of `action()`. -/
theorem two_starts_one_action :
    afterStart (fun n : Nat => n + 1) 1 0 0 twoStarts = (idleAfter 1, 1) := by
  decide

/-! ## The scheduler gate -/

theorem StartCaffeinate_enableMaintainLoop (start : Option Nat) (w : World) :
    ((StartCaffeinate start).run w).2.enableMaintainLoop = w.enableMaintainLoop := by
  rw [StartCaffeinate_run]
  obtain ⟨smc, ⟨cmd⟩, ip, en, procs, tr⟩ := w
  cases cmd <;> cases start <;> simp [World.log]

theorem StopCaffeinate_enableMaintainLoop (killErr : Bool) (w : World) :
    ((StopCaffeinate killErr).run w).2.enableMaintainLoop = w.enableMaintainLoop := by
  rw [StopCaffeinate_run]
  obtain ⟨smc, ⟨cmd⟩, ip, en, procs, tr⟩ := w
  rcases cmd with _ | ⟨_ | pid⟩ <;> cases killErr <;> simp [World.log]

@[simp] theorem ledStep_enableMaintainLoop (config : Config) (o : Outcomes) (b : Bool)
    (w : World) : (ledStep config o b w).2.enableMaintainLoop = w.enableMaintainLoop := by
  unfold ledStep; split_ifs <;> rfl

theorem disableStep_enableMaintainLoop (config : Config) (o : Outcomes) (bc : Int) (b : Bool)
    (w : World) : (disableStep config o bc b w).2.enableMaintainLoop = w.enableMaintainLoop := by
  unfold disableStep
  have hstop := StopCaffeinate_enableMaintainLoop o.killErr w
  generalize (StopCaffeinate o.killErr).run w = r at hstop
  obtain ⟨err, w1⟩ := r
  cases err <;> split_ifs <;>
    simp_all [World.log, World.setCharging, World.setInProgress]

theorem enableStep_enableMaintainLoop (config : Config) (o : Outcomes) (bc : Int) (b : Bool)
    (w : World) : (enableStep config o bc b w).2.enableMaintainLoop = w.enableMaintainLoop := by
  unfold enableStep
  have hstart := StartCaffeinate_enableMaintainLoop o.cmdStart w
  generalize (StartCaffeinate o.cmdStart).run w = r at hstart
  obtain ⟨err, w1⟩ := r
  cases err <;> split_ifs <;>
    simp_all [disableStep_enableMaintainLoop, World.log, World.setCharging,
      World.setInProgress]

/-- A tick never writes `enableMaintainLoop`. -/
theorem maintainLoop_enableMaintainLoop (config : Config) (o : Outcomes) (w : World) :
    ((maintainLoop config o).run w).2.enableMaintainLoop = w.enableMaintainLoop := by
  rw [maintainLoop_run]
  unfold maintainLoopUnrolled
  split_ifs <;>
    simp [enableStep_enableMaintainLoop, World.log, World.setCharging, World.setInProgress]

theorem infiniteLoopBody_run (config : Config) (o : Outcomes) (w : World) :
    (infiniteLoopBody config o).run w =
      if w.enableMaintainLoop then ((), ((maintainLoop config o).run w).2) else ((), w) := by
  cases h : w.enableMaintainLoop <;>
    simp [infiniteLoopBody, h, StateT.run_bind, run_ite, StateT.run_pure, Id.bind_eq,
      Id.pure_eq, StateT.run_get]

theorem countDownStep_send_state {σ : Type} (action : σ → σ) (seconds : Int)
    (t : CountDown × σ) :
    (countDownStep action seconds .send t).2 = t.2 ∧
    (countDownStep action seconds .send t).1.actions = t.1.actions := by
  obtain ⟨⟨ph, pend, act⟩, s⟩ := t
  cases ph <;> simp [countDownStep]

theorem countDownStep_tick_state {σ : Type} (action : σ → σ) (seconds : Int)
    (t : CountDown × σ) :
    ((countDownStep action seconds .tick t).2 = t.2 ∧
      (countDownStep action seconds .tick t).1.actions = t.1.actions) ∨
    ((countDownStep action seconds .tick t).2 = action t.2 ∧
      (countDownStep action seconds .tick t).1.actions = t.1.actions + 1) := by
  obtain ⟨⟨ph, pend, act⟩, s⟩ := t
  cases ph with
  | idle => simp [countDownStep]
  | counting e =>
    simp only [countDownStep]
    split
    · left; exact ⟨rfl, rfl⟩
    · right; split_ifs <;> exact ⟨rfl, rfl⟩

theorem StartCaffeinate_trace (start : Option Nat) (w : World) :
    ∃ calls, ((StartCaffeinate start).run w).2.trace = w.trace ++ calls := by
  rw [StartCaffeinate_run]
  obtain ⟨smc, ⟨cmd⟩, ip, en, procs, tr⟩ := w
  cases cmd <;> cases start <;> simp [World.log]

theorem StopCaffeinate_trace (killErr : Bool) (w : World) :
    ∃ calls, ((StopCaffeinate killErr).run w).2.trace = w.trace ++ calls := by
  rw [StopCaffeinate_run]
  obtain ⟨smc, ⟨cmd⟩, ip, en, procs, tr⟩ := w
  rcases cmd with _ | ⟨_ | pid⟩ <;> cases killErr <;> simp [World.log]

theorem disableStep_trace (config : Config) (o : Outcomes) (bc : Int) (b : Bool) (w : World) :
    ∃ calls, (disableStep config o bc b w).2.trace = w.trace ++ calls := by
  unfold disableStep
  obtain ⟨c1, hstop⟩ := StopCaffeinate_trace o.killErr w
  generalize (StopCaffeinate o.killErr).run w = r at hstop
  obtain ⟨err, w1⟩ := r
  simp only at hstop
  cases err <;> split_ifs
  all_goals
    first
      | exact ⟨_, ledStep_trace _ _ _ w⟩
      | exact ⟨c1, hstop⟩
      | (refine ⟨c1 ++ [.DisableCharging], ?_⟩
         simp [World.log, hstop]
         done)
      | (refine ⟨c1 ++ .DisableCharging :: ledCalls config false, ?_⟩
         simp [World.log, World.setCharging, World.setInProgress, hstop])

theorem enableStep_trace (config : Config) (o : Outcomes) (bc : Int) (b : Bool) (w : World) :
    ∃ calls, (enableStep config o bc b w).2.trace = w.trace ++ calls := by
  unfold enableStep
  obtain ⟨c1, hstart⟩ := StartCaffeinate_trace o.cmdStart w
  generalize (StartCaffeinate o.cmdStart).run w = r at hstart
  obtain ⟨err, w1⟩ := r
  simp only at hstart
  obtain ⟨c2, h2⟩ := disableStep_trace config o bc true
    (((w1.log .EnableCharging).setCharging true).setInProgress true)
  cases err <;> split_ifs
  all_goals
    first
      | exact disableStep_trace _ _ _ _ w
      | exact ⟨c1, hstart⟩
      | (refine ⟨c1 ++ [.EnableCharging], ?_⟩
         simp [World.log, hstart]
         done)
      | (refine ⟨c1 ++ .EnableCharging :: c2, ?_⟩
         rw [h2]
         simp [World.log, World.setCharging, World.setInProgress, hstart])

/-- Every tick starts by reading the charging switch. -/
theorem maintainLoop_trace (config : Config) (o : Outcomes) (w : World) :
    ∃ calls, ((maintainLoop config o).run w).2.trace =
      w.trace ++ Call.IsChargingEnabled :: calls := by
  rw [maintainLoop_run]
  unfold maintainLoopUnrolled
  split_ifs
  all_goals
    first
      | exact ⟨_, by simp [World.log, World.setCharging, World.setInProgress]; rfl⟩
      | (obtain ⟨calls, h⟩ := enableStep_trace config o w.smc.batteryCharge
           w.smc.chargingEnabled
           ((((w.log .IsChargingEnabled).log .GetBatteryCharge).log .IsPluggedIn).setInProgress
             (w.smc.chargingEnabled && w.smc.pluggedIn))
         exact ⟨_, by rw [h]; simp [World.log, World.setInProgress]; rfl⟩)

/-- Claim C13.  `systemWillSleepCallback` sets `enableMaintainLoop` to `false` whatever it
was and changes nothing else; with the flag `false` one iteration of `infiniteLoop` leaves
the state untouched (no tick), with the flag `true` it runs one tick; from a state with the
flag `false`, the only event after which the flag is `true` is a ticker tick at which the
countdown calls its action; and `systemHasPoweredOnCallback` runs one tick whatever the flag
is, without changing the flag and without calling the action itself. -/
theorem scheduler_gate_rearmed_only_by_countdown (config : Config) :
    (∀ w, (systemWillSleepCallback.run w).2 = { w with enableMaintainLoop := false }) ∧
    (∀ o w, w.enableMaintainLoop = false → (infiniteLoopBody config o).run w = ((), w)) ∧
    (∀ o w, w.enableMaintainLoop = true →
      (infiniteLoopBody config o).run w = ((), ((maintainLoop config o).run w).2)) ∧
    (∀ s ev, s.world.enableMaintainLoop = false →
      (System.step config s ev).world.enableMaintainLoop = true →
      ev = .timerTick ∧ (System.step config s ev).timer.actions = s.timer.actions + 1) ∧
    (∀ o s,
      (systemHasPoweredOnCallback config o s).world = ((maintainLoop config o).run s.world).2 ∧
      (systemHasPoweredOnCallback config o s).world.enableMaintainLoop =
        s.world.enableMaintainLoop ∧
      (systemHasPoweredOnCallback config o s).timer.actions = s.timer.actions ∧
      ∃ calls, (systemHasPoweredOnCallback config o s).world.trace =
        s.world.trace ++ Call.IsChargingEnabled :: calls) := by
  have hwake : ∀ o s,
      (systemHasPoweredOnCallback config o s).world = ((maintainLoop config o).run s.world).2 ∧
      (systemHasPoweredOnCallback config o s).timer.actions = s.timer.actions := by
    intro o s
    have := countDownStep_send_state enableMaintainLoopAction postSleepLoopDelaySeconds
      (s.timer, ((maintainLoop config o).run s.world).2)
    exact ⟨this.1, this.2⟩
  refine ⟨fun w => rfl, ?_, ?_, ?_, ?_⟩
  · intro o w h
    rw [infiniteLoopBody_run, h]; rfl
  · intro o w h
    rw [infiniteLoopBody_run, h]; rfl
  · intro s ev hoff hon
    cases ev with
    | canSystemSleep => simp [System.step, hoff] at hon
    | systemWillSleep => simp [System.step, systemWillSleepCallback, modify_run] at hon
    | systemWillPowerOn => simp [System.step, hoff] at hon
    | systemHasPoweredOn o =>
      simp only [System.step] at hon
      rw [(hwake o s).1, maintainLoop_enableMaintainLoop, hoff] at hon
      cases hon
    | loopIteration o =>
      simp [System.step, infiniteLoopBody_run, hoff] at hon
    | timerTick =>
      refine ⟨rfl, ?_⟩
      simp only [System.step] at hon ⊢
      rcases countDownStep_tick_state enableMaintainLoopAction postSleepLoopDelaySeconds
        (s.timer, s.world) with ⟨h1, -⟩ | ⟨-, h2⟩
      · rw [h1] at hon
        simp only at hon
        rw [hoff] at hon
        cases hon
      · exact h2
  · intro o s
    refine ⟨(hwake o s).1, ?_, (hwake o s).2, ?_⟩
    · rw [(hwake o s).1, maintainLoop_enableMaintainLoop]
    · rw [(hwake o s).1]
      exact maintainLoop_trace config o s.world

/-! ## More about one tick -/

/-- Claim C14.  If `IsChargingEnabled` fails, or `Limit < 100` and `GetBatteryCharge` or
`IsPluggedIn` fails, the tick returns `false`; the hardware state, the keep-awake handle, the
live processes and `maintainedChargingInProgress` are as before; and the tick has made none of
the calls `EnableCharging`, `DisableCharging`, `StartCaffeinate`, `StopCaffeinate`,
`SetMagSafeCharging` (nor launched or signalled a process). -/
theorem read_failure_aborts_tick_untouched (config : Config) (o : Outcomes) (w : World)
    (hfail : o.isChargingEnabledErr = true ∨
      (config.Limit < 100 ∧ (o.getBatteryChargeErr = true ∨ o.isPluggedInErr = true))) :
    ((maintainLoop config o).run w).1 = false ∧
    ((maintainLoop config o).run w).2.smc = w.smc ∧
    ((maintainLoop config o).run w).2.controller = w.controller ∧
    ((maintainLoop config o).run w).2.procs = w.procs ∧
    ((maintainLoop config o).run w).2.maintainedChargingInProgress =
      w.maintainedChargingInProgress ∧
    ∃ calls, ((maintainLoop config o).run w).2.trace = w.trace ++ calls ∧
      Call.EnableCharging ∉ calls ∧ Call.DisableCharging ∉ calls ∧
      Call.StartCaffeinate ∉ calls ∧ Call.StopCaffeinate ∉ calls ∧
      (∀ b, Call.SetMagSafeCharging b ∉ calls) ∧
      Call.CmdStart ∉ calls ∧ ∀ pid, Call.Kill pid ∉ calls := by
  rw [maintainLoop_run]
  obtain ⟨e1, e2, e3, e4, e5, e6, st, e8⟩ := o
  obtain ⟨⟨ce, bc, pl, ms⟩, ⟨cmd⟩, ip, en, procs, tr⟩ := w
  simp only [maintainLoopUnrolled, World.log, World.setCharging, World.setInProgress]
  simp only at hfail
  rcases hfail with h | ⟨hu, h | h⟩
  · subst h
    simp
  · have h1 : ¬ 100 ≤ config.Limit := by omega
    subst h
    cases e1 <;> simp [h1]
  · have h1 : ¬ 100 ≤ config.Limit := by omega
    subst h
    cases e1 <;> cases e2 <;> simp [h1]

theorem read_failure_aborts_tick_untouched_witness :
    ((maintainLoop cfg80 batteryReadFails).run worldLow).1 = false ∧
    ((maintainLoop cfg80 batteryReadFails).run worldLow).2.smc = worldLow.smc ∧
    ((maintainLoop cfg80 batteryReadFails).run worldLow).2.controller = worldLow.controller ∧
    ((maintainLoop cfg80 batteryReadFails).run worldLow).2.procs = worldLow.procs ∧
    ((maintainLoop cfg80 batteryReadFails).run worldLow).2.maintainedChargingInProgress =
      worldLow.maintainedChargingInProgress ∧
    ∃ calls, ((maintainLoop cfg80 batteryReadFails).run worldLow).2.trace =
        worldLow.trace ++ calls ∧
      Call.EnableCharging ∉ calls ∧ Call.DisableCharging ∉ calls ∧
      Call.StartCaffeinate ∉ calls ∧ Call.StopCaffeinate ∉ calls ∧
      (∀ b, Call.SetMagSafeCharging b ∉ calls) ∧
      Call.CmdStart ∉ calls ∧ ∀ pid, Call.Kill pid ∉ calls :=
  read_failure_aborts_tick_untouched cfg80 batteryReadFails worldLow
    (Or.inr ⟨by decide, Or.inl rfl⟩)

/-- Claim C19.  With `Limit = 100`, for every state and whatever the outside calls answer:
the calls of the tick are `IsChargingEnabled` alone or `IsChargingEnabled` followed by one
`EnableCharging`, so none of `GetBatteryCharge`, `IsPluggedIn`, `DisableCharging`,
`StartCaffeinate`, `StopCaffeinate`, `SetMagSafeCharging` is made, also with LED control
configured; the keep-awake handle, the live processes, the LED, the battery readings and
`enableMaintainLoop` are as before. -/
theorem tick_limit_100_touches_only_charging (config : Config) (o : Outcomes) (w : World)
    (hu : config.Limit = 100) :
    ((maintainLoop config o).run w).2.controller = w.controller ∧
    ((maintainLoop config o).run w).2.procs = w.procs ∧
    ((maintainLoop config o).run w).2.smc.batteryCharge = w.smc.batteryCharge ∧
    ((maintainLoop config o).run w).2.smc.pluggedIn = w.smc.pluggedIn ∧
    ((maintainLoop config o).run w).2.smc.magSafeCharging = w.smc.magSafeCharging ∧
    ((maintainLoop config o).run w).2.enableMaintainLoop = w.enableMaintainLoop ∧
    ∃ calls, ((maintainLoop config o).run w).2.trace = w.trace ++ calls ∧
      (calls = [Call.IsChargingEnabled] ∨
        calls = [Call.IsChargingEnabled, Call.EnableCharging]) ∧
      Call.GetBatteryCharge ∉ calls ∧ Call.IsPluggedIn ∉ calls ∧
      Call.DisableCharging ∉ calls ∧ Call.StartCaffeinate ∉ calls ∧
      Call.StopCaffeinate ∉ calls ∧ (∀ b, Call.SetMagSafeCharging b ∉ calls) ∧
      Call.CmdStart ∉ calls ∧ ∀ pid, Call.Kill pid ∉ calls := by
  have h1 : 100 ≤ config.Limit := by omega
  rw [maintainLoop_run]
  obtain ⟨e1, e2, e3, e4, e5, e6, st, e8⟩ := o
  obtain ⟨⟨ce, bc, pl, ms⟩, ⟨cmd⟩, ip, en, procs, tr⟩ := w
  simp only [maintainLoopUnrolled, World.log, World.setCharging, World.setInProgress, h1]
  cases e1 <;> cases ce <;> cases e4 <;> simp

theorem tick_limit_100_touches_only_charging_witness :
    ((maintainLoop cfg100 (allOk 4242)).run worldHigh).2.controller = worldHigh.controller ∧
    ((maintainLoop cfg100 (allOk 4242)).run worldHigh).2.procs = worldHigh.procs ∧
    ((maintainLoop cfg100 (allOk 4242)).run worldHigh).2.smc.batteryCharge =
      worldHigh.smc.batteryCharge ∧
    ((maintainLoop cfg100 (allOk 4242)).run worldHigh).2.smc.pluggedIn =
      worldHigh.smc.pluggedIn ∧
    ((maintainLoop cfg100 (allOk 4242)).run worldHigh).2.smc.magSafeCharging =
      worldHigh.smc.magSafeCharging ∧
    ((maintainLoop cfg100 (allOk 4242)).run worldHigh).2.enableMaintainLoop =
      worldHigh.enableMaintainLoop ∧
    ∃ calls, ((maintainLoop cfg100 (allOk 4242)).run worldHigh).2.trace =
        worldHigh.trace ++ calls ∧
      (calls = [Call.IsChargingEnabled] ∨
        calls = [Call.IsChargingEnabled, Call.EnableCharging]) ∧
      Call.GetBatteryCharge ∉ calls ∧ Call.IsPluggedIn ∉ calls ∧
      Call.DisableCharging ∉ calls ∧ Call.StartCaffeinate ∉ calls ∧
      Call.StopCaffeinate ∉ calls ∧ (∀ b, Call.SetMagSafeCharging b ∉ calls) ∧
      Call.CmdStart ∉ calls ∧ ∀ pid, Call.Kill pid ∉ calls :=
  tick_limit_100_touches_only_charging cfg100 (allOk 4242) worldHigh rfl

/-- Claim C18.  With a started keep-awake command stored: when the signal fails,
`StopCaffeinate` returns an error, handle and live processes are unchanged, and the only
calls are the stop itself and the `Kill` of that process group; a following `StartCaffeinate`
returns `nil` and only logs itself (no launch); a following `StopCaffeinate` signals the same
process group again.  The handle is cleared exactly when the signal succeeds, which is also
exactly when `StopCaffeinate` returns `nil`. -/
theorem stop_failure_keeps_handle (w : World) (pid : Nat) (launch : Option Nat)
    (hcmd : w.controller.Cmd = some { Process := some pid }) :
    ((StopCaffeinate true).run w).1 ≠ none ∧
    ((StopCaffeinate true).run w).2.controller = w.controller ∧
    ((StopCaffeinate true).run w).2.procs = w.procs ∧
    ((StopCaffeinate true).run w).2.trace = w.trace ++ [.StopCaffeinate, .Kill pid] ∧
    (StartCaffeinate launch).run ((StopCaffeinate true).run w).2 =
      (none, ((StopCaffeinate true).run w).2.log .StartCaffeinate) ∧
    (∀ killErr, ((StopCaffeinate killErr).run ((StopCaffeinate true).run w).2).2.trace =
      w.trace ++ [.StopCaffeinate, .Kill pid, .StopCaffeinate, .Kill pid]) ∧
    (∀ killErr, ((StopCaffeinate killErr).run w).2.controller.Cmd = none ↔ killErr = false) ∧
    (∀ killErr, ((StopCaffeinate killErr).run w).1 = none ↔ killErr = false) := by
  obtain ⟨smc, ⟨cmd⟩, ip, en, procs, tr⟩ := w
  simp only at hcmd
  subst hcmd
  simp only [StopCaffeinate_run, StartCaffeinate_run, World.log]
  refine ⟨by simp, by simp, by simp, by simp, by simp, ?_, ?_, ?_⟩ <;>
    intro killErr <;> cases killErr <;> simp

theorem stop_failure_keeps_handle_witness :
    ((StopCaffeinate true).run worldHigh).1 ≠ none ∧
    ((StopCaffeinate true).run worldHigh).2.controller = worldHigh.controller ∧
    ((StopCaffeinate true).run worldHigh).2.procs = worldHigh.procs ∧
    ((StopCaffeinate true).run worldHigh).2.trace =
      worldHigh.trace ++ [.StopCaffeinate, .Kill 7] ∧
    (StartCaffeinate (some 4242)).run ((StopCaffeinate true).run worldHigh).2 =
      (none, ((StopCaffeinate true).run worldHigh).2.log .StartCaffeinate) ∧
    (∀ killErr, ((StopCaffeinate killErr).run ((StopCaffeinate true).run worldHigh).2).2.trace =
      worldHigh.trace ++ [.StopCaffeinate, .Kill 7, .StopCaffeinate, .Kill 7]) ∧
    (∀ killErr, ((StopCaffeinate killErr).run worldHigh).2.controller.Cmd = none ↔
      killErr = false) ∧
    (∀ killErr, ((StopCaffeinate killErr).run worldHigh).1 = none ↔ killErr = false) :=
  stop_failure_keeps_handle worldHigh 7 (some 4242) rfl

/-- Claim C15.  With `Limit < 100` and LED control configured, for a tick that returns
`true`: it returns `true` for either answer of `SetMagSafeCharging`, and its calls contain
`SetMagSafeCharging` exactly once, with the value the charging switch has after the tick.
That value is `false` after a disable step, `true` after an enable step (for a validated
configuration, or whenever no disable step followed), and the snapshot value otherwise. -/
theorem led_mirrors_final_charging (config : Config) (o : Outcomes) (w : World)
    (hu : config.Limit < 100) (hled : config.ControlMagSafeLED = true)
    (hs : ((maintainLoop config o).run w).1 = true) :
    (∀ ledErr,
      ((maintainLoop config { o with setMagSafeChargingErr := ledErr }).run w).1 = true) ∧
    ∃ calls, ((maintainLoop config o).run w).2.trace = w.trace ++ calls ∧
      calls.count
        (Call.SetMagSafeCharging ((maintainLoop config o).run w).2.smc.chargingEnabled) = 1 ∧
      Call.SetMagSafeCharging (!((maintainLoop config o).run w).2.smc.chargingEnabled) ∉ calls ∧
      (Call.DisableCharging ∈ calls →
        ((maintainLoop config o).run w).2.smc.chargingEnabled = false) ∧
      (Call.EnableCharging ∈ calls → Call.DisableCharging ∉ calls →
        ((maintainLoop config o).run w).2.smc.chargingEnabled = true) ∧
      (config.Valid → Call.EnableCharging ∈ calls →
        ((maintainLoop config o).run w).2.smc.chargingEnabled = true) ∧
      (Call.EnableCharging ∉ calls → Call.DisableCharging ∉ calls →
        ((maintainLoop config o).run w).2.smc.chargingEnabled = w.smc.chargingEnabled) := by
  have h1 : ¬ 100 ≤ config.Limit := by omega
  have hval : config.Valid → config.lowerLimit ≤ config.Limit :=
    fun hv => (lowerLimit_of_valid config hv).2
  simp only [maintainLoop_run] at hs ⊢
  obtain ⟨e1, e2, e3, e4, e5, e6, st, e8⟩ := o
  obtain ⟨⟨ce, bc, pl, ms⟩, ⟨cmd⟩, ip, en, procs, tr⟩ := w
  simp only [maintainLoopUnrolled, enableStep, disableStep, StartCaffeinate_run,
    StopCaffeinate_run, World.log, World.setCharging, World.setInProgress, h1] at hs ⊢
  cases e1
  swap
  · simp at hs
  cases e2
  swap
  · simp at hs
  cases e3
  swap
  · simp at hs
  simp only [Bool.false_eq_true, if_false] at hs ⊢
  by_cases hlow : bc < config.lowerLimit
  · by_cases hup : bc ≥ config.Limit
    · have hnv : ¬ config.Valid := fun hv => by have := hval hv; omega
      cases ce <;> rcases cmd with _ | ⟨_ | pid⟩ <;> cases st <;> cases e4 <;> cases e8 <;>
        cases e5 <;> simp [hlow, hup, hnv, ledCalls, hled] at hs ⊢
    · cases ce <;> rcases cmd with _ | ⟨_ | pid⟩ <;> cases st <;> cases e4 <;>
        simp [hlow, hup, ledCalls, hled] at hs ⊢
  · by_cases hup : bc ≥ config.Limit
    · cases ce <;> rcases cmd with _ | ⟨_ | pid⟩ <;> cases e8 <;> cases e5 <;>
        simp [hlow, hup, ledCalls, hled] at hs ⊢
    · cases ce <;> simp [hlow, hup, ledCalls, hled] at hs ⊢

theorem led_mirrors_final_charging_witness :
    (∀ ledErr,
      ((maintainLoop cfg80Led { ledFails with setMagSafeChargingErr := ledErr }).run
        worldLow).1 = true) ∧
    ∃ calls, ((maintainLoop cfg80Led ledFails).run worldLow).2.trace = worldLow.trace ++ calls ∧
      calls.count
        (Call.SetMagSafeCharging
          ((maintainLoop cfg80Led ledFails).run worldLow).2.smc.chargingEnabled) = 1 ∧
      Call.SetMagSafeCharging
        (!((maintainLoop cfg80Led ledFails).run worldLow).2.smc.chargingEnabled) ∉ calls ∧
      (Call.DisableCharging ∈ calls →
        ((maintainLoop cfg80Led ledFails).run worldLow).2.smc.chargingEnabled = false) ∧
      (Call.EnableCharging ∈ calls → Call.DisableCharging ∉ calls →
        ((maintainLoop cfg80Led ledFails).run worldLow).2.smc.chargingEnabled = true) ∧
      (cfg80Led.Valid → Call.EnableCharging ∈ calls →
        ((maintainLoop cfg80Led ledFails).run worldLow).2.smc.chargingEnabled = true) ∧
      (Call.EnableCharging ∉ calls → Call.DisableCharging ∉ calls →
        ((maintainLoop cfg80Led ledFails).run worldLow).2.smc.chargingEnabled =
          worldLow.smc.chargingEnabled) :=
  led_mirrors_final_charging cfg80Led ledFails worldLow (by decide) rfl (by decide)

/-- At the example the LED call fails, the tick still returns `true`, and the one
`SetMagSafeCharging` call carries `true`, the value the enable step left behind. -/
theorem led_failure_does_not_fail_tick :
    ((maintainLoop cfg80Led ledFails).run worldLow).1 = true ∧
    ((maintainLoop cfg80Led ledFails).run worldLow).2.trace =
      [.IsChargingEnabled, .GetBatteryCharge, .IsPluggedIn, .StartCaffeinate, .CmdStart,
       .EnableCharging, .SetMagSafeCharging true] := by
  decide

/-- Claim C17.  After a tick that returns `true`: with `Limit < 100`,
`maintainedChargingInProgress` is `false` if the disable step ran, `true` if the enable step
ran (for a validated configuration, or whenever no disable step followed), whatever the
snapshot says about being plugged in, and otherwise the snapshot's
`chargingEnabled && pluggedIn`.  For every limit, the flag being `true` after the tick
implies that charging is enabled after the tick. -/
theorem in_progress_flag_after_tick (config : Config) (o : Outcomes) (w : World)
    (hs : ((maintainLoop config o).run w).1 = true) :
    (config.Limit < 100 →
      ∃ calls, ((maintainLoop config o).run w).2.trace = w.trace ++ calls ∧
        (Call.DisableCharging ∈ calls →
          ((maintainLoop config o).run w).2.maintainedChargingInProgress = false) ∧
        (Call.EnableCharging ∈ calls → Call.DisableCharging ∉ calls →
          ((maintainLoop config o).run w).2.maintainedChargingInProgress = true) ∧
        (config.Valid → Call.EnableCharging ∈ calls →
          ((maintainLoop config o).run w).2.maintainedChargingInProgress = true) ∧
        (Call.EnableCharging ∉ calls → Call.DisableCharging ∉ calls →
          ((maintainLoop config o).run w).2.maintainedChargingInProgress =
            (w.smc.chargingEnabled && w.smc.pluggedIn))) ∧
    (((maintainLoop config o).run w).2.maintainedChargingInProgress = true →
      ((maintainLoop config o).run w).2.smc.chargingEnabled = true) := by
  have hval : config.Valid → config.lowerLimit ≤ config.Limit :=
    fun hv => (lowerLimit_of_valid config hv).2
  simp only [maintainLoop_run] at hs ⊢
  obtain ⟨e1, e2, e3, e4, e5, e6, st, e8⟩ := o
  obtain ⟨⟨ce, bc, pl, ms⟩, ⟨cmd⟩, ip, en, procs, tr⟩ := w
  simp only [maintainLoopUnrolled, enableStep, disableStep, StartCaffeinate_run,
    StopCaffeinate_run, World.log, World.setCharging, World.setInProgress] at hs ⊢
  cases e1
  swap
  · simp at hs
  simp only [Bool.false_eq_true, if_false] at hs ⊢
  by_cases h100 : 100 ≤ config.Limit
  · have hn : ¬ config.Limit < 100 := by omega
    cases ce <;> cases e4 <;> simp [h100, hn] at hs ⊢
  have hlt : config.Limit < 100 := by omega
  simp only [h100, if_false, hlt, forall_const] at hs ⊢
  cases e2
  swap
  · simp at hs
  cases e3
  swap
  · simp at hs
  simp only [Bool.false_eq_true, if_false] at hs ⊢
  by_cases hlow : bc < config.lowerLimit
  · by_cases hup : bc ≥ config.Limit
    · have hnv : ¬ config.Valid := fun hv => by have := hval hv; omega
      cases ce <;> rcases cmd with _ | ⟨_ | pid⟩ <;> cases st <;> cases e4 <;> cases e8 <;>
        cases e5 <;> simp [hlow, hup, hnv] at hs ⊢
    · cases ce <;> rcases cmd with _ | ⟨_ | pid⟩ <;> cases st <;> cases e4 <;>
        simp [hlow, hup] at hs ⊢
  · by_cases hup : bc ≥ config.Limit
    · cases ce <;> rcases cmd with _ | ⟨_ | pid⟩ <;> cases e8 <;> cases e5 <;>
        simp [hlow, hup] at hs ⊢
    · cases ce <;> simp [hlow, hup] at hs ⊢

theorem in_progress_flag_after_tick_witness :
    (cfg80.Limit < 100 →
      ∃ calls, ((maintainLoop cfg80 (allOk 4242)).run worldLowUnplugged).2.trace =
          worldLowUnplugged.trace ++ calls ∧
        (Call.DisableCharging ∈ calls →
          ((maintainLoop cfg80 (allOk 4242)).run
            worldLowUnplugged).2.maintainedChargingInProgress = false) ∧
        (Call.EnableCharging ∈ calls → Call.DisableCharging ∉ calls →
          ((maintainLoop cfg80 (allOk 4242)).run
            worldLowUnplugged).2.maintainedChargingInProgress = true) ∧
        (cfg80.Valid → Call.EnableCharging ∈ calls →
          ((maintainLoop cfg80 (allOk 4242)).run
            worldLowUnplugged).2.maintainedChargingInProgress = true) ∧
        (Call.EnableCharging ∉ calls → Call.DisableCharging ∉ calls →
          ((maintainLoop cfg80 (allOk 4242)).run
            worldLowUnplugged).2.maintainedChargingInProgress =
            (worldLowUnplugged.smc.chargingEnabled && worldLowUnplugged.smc.pluggedIn))) ∧
    (((maintainLoop cfg80 (allOk 4242)).run
        worldLowUnplugged).2.maintainedChargingInProgress = true →
      ((maintainLoop cfg80 (allOk 4242)).run worldLowUnplugged).2.smc.chargingEnabled = true) :=
  in_progress_flag_after_tick cfg80 (allOk 4242) worldLowUnplugged (by decide)

/-- At the example the enable step runs although the snapshot says "not plugged in", and the
flag ends up `true`. -/
theorem in_progress_true_when_unplugged :
    ((maintainLoop cfg80 (allOk 4242)).run worldLowUnplugged).2.maintainedChargingInProgress =
      true ∧
    Call.EnableCharging ∈ ((maintainLoop cfg80 (allOk 4242)).run worldLowUnplugged).2.trace := by
  decide

end Batt
